import Mathlib

/-!
Verification of the dev-agent repository against its specification.

Python strings are modelled as `List Char` (a Python `str` is a sequence of
unicode code points).  Each Python function under test is translated into an
executable Lean definition over this representation; external effects
(subprocesses, the LLM backend, the filesystem, the clock, git) are abstracted
as explicit environment records supplying the observable outcome of each call,
exactly at the boundaries the code itself observes them.

Modelling notes, applying throughout:
* `str.splitlines` is modelled for the ASCII line-break characters
  (`\n`, `\r`, `\r\n`, `\x0b`, `\x0c`); the exotic unicode breaks
  (`\x1c`-`\x1e`, `\x85`, U+2028/29) are omitted.  All inputs appearing in
  the claims use `\n` only.
* `str.split()` / `str.strip()` / the regex `\s` class use the six ASCII
  whitespace characters; unicode whitespace is omitted.
* `int(...)` is modelled for an optional sign followed by ASCII digits
  (surrounding whitespace stripped); digit-group underscores and unicode
  digits are omitted.  Failure (`ValueError`) is modelled as `none`.
-/

set_option autoImplicit false

namespace DevAgent

/-- Python whitespace test (`str.isspace` on the ASCII characters, used by
`str.split()`, `str.strip()` and the regex class `\s`). -/
def isPyWS (c : Char) : Bool :=
  c = ' ' || c = '\t' || c = '\n' || c = '\x0d' || c = '\x0b' || c = '\x0c'

/-- ASCII line-break characters recognised by `str.splitlines`
(other than the two-character sequence `\r\n`, handled separately). -/
def isPyBreak (c : Char) : Bool :=
  c = '\n' || c = '\x0d' || c = '\x0b' || c = '\x0c'

/-- ASCII decimal digit (regex class `\d`). -/
def isPyDigit (c : Char) : Bool :=
  '0' ≤ c && c ≤ '9'

/-- Worker for `pySplitlines`: `acc` holds the current (reversed) line.
A `\r` immediately followed by `\n` consumes both characters. -/
def pySplitlinesGo : List Char → List Char → List (List Char)
  | [], acc => if acc.isEmpty then [] else [acc.reverse]
  | '\x0d' :: '\n' :: t, acc => acc.reverse :: pySplitlinesGo t []
  | c :: t, acc =>
    if isPyBreak c then acc.reverse :: pySplitlinesGo t []
    else pySplitlinesGo t (c :: acc)

/-- Python `str.splitlines()` (line breaks dropped). -/
def pySplitlines (cs : List Char) : List (List Char) :=
  pySplitlinesGo cs []

/-- Worker for `pySplitlinesKeep`. -/
def pySplitlinesKeepGo : List Char → List Char → List (List Char)
  | [], acc => if acc.isEmpty then [] else [acc.reverse]
  | '\x0d' :: '\n' :: t, acc => (acc.reverse ++ ['\x0d', '\n']) :: pySplitlinesKeepGo t []
  | c :: t, acc =>
    if isPyBreak c then (acc.reverse ++ [c]) :: pySplitlinesKeepGo t []
    else pySplitlinesKeepGo t (c :: acc)

/-- Python `str.splitlines(keepends=True)`. -/
def pySplitlinesKeep (cs : List Char) : List (List Char) :=
  pySplitlinesKeepGo cs []

/-- Worker for `pySplitWS`. -/
def pySplitWSGo : List Char → List Char → List (List Char)
  | [], acc => if acc.isEmpty then [] else [acc.reverse]
  | c :: t, acc =>
    if isPyWS c then
      if acc.isEmpty then pySplitWSGo t [] else acc.reverse :: pySplitWSGo t []
    else pySplitWSGo t (c :: acc)

/-- Python `str.split()` with no argument: split on whitespace runs,
discarding leading/trailing whitespace and empty fields. -/
def pySplitWS (cs : List Char) : List (List Char) :=
  pySplitWSGo cs []

/-- Python `str.strip()` on ASCII whitespace. -/
def pyStrip (cs : List Char) : List Char :=
  ((cs.dropWhile isPyWS).reverse.dropWhile isPyWS).reverse

/-- Value of a non-empty all-digit string. -/
def digitsVal (ds : List Char) : Nat :=
  ds.foldl (fun a c => a * 10 + (c.toNat - 48)) 0

/-- Python `int(s)`: optional sign then ASCII digits, surrounding whitespace
stripped; `none` models the `ValueError` raised on anything else. -/
def pyInt (cs : List Char) : Option Int :=
  match pyStrip cs with
  | [] => none
  | c :: ds =>
    if c = '-' then
      if ds ≠ [] && ds.all isPyDigit then some (-(digitsVal ds : Int)) else none
    else if c = '+' then
      if ds ≠ [] && ds.all isPyDigit then some (digitsVal ds : Int) else none
    else if (c :: ds).all isPyDigit then some (digitsVal (c :: ds) : Int) else none

/-- Decimal digit characters of `n` (most significant first). -/
def natToCharsAux : Nat → Nat → List Char → List Char
  | 0, _, acc => acc
  | fuel + 1, n, acc =>
    if n < 10 then Nat.digitChar n :: acc
    else natToCharsAux fuel (n / 10) (Nat.digitChar (n % 10) :: acc)

/-- Python `str(n)` for a natural number. -/
def natToChars (n : Nat) : List Char :=
  natToCharsAux (n + 1) n []

/-- Python `s.split("_", 1)` when an underscore occurs: the text before the
first underscore and the text after it.  `none` when `s` has no underscore. -/
def pySplitUnd : List Char → Option (List Char × List Char)
  | [] => none
  | c :: t =>
    if c = '_' then some ([], t)
    else (pySplitUnd t).map (fun p => (c :: p.1, p.2))

/-- Python `re.sub(r"::", "-", s)`: each non-overlapping `::` (leftmost
first) becomes a single `-`. -/
def subDD : List Char → List Char
  | ':' :: ':' :: t => '-' :: subDD t
  | c :: t => c :: subDD t
  | [] => []

/-- Python `re.sub(r":", "-", s)`. -/
def subColon (cs : List Char) : List Char :=
  cs.map fun c => if c = ':' then '-' else c

/-- Python `s.replace(" ", "-")`. -/
def subSpaces (cs : List Char) : List Char :=
  cs.map fun c => if c = ' ' then '-' else c

/-- `dev_agent._sanitize_branch_name` (dev_agent.py lines 238-255): split at
the first underscore, keep the part before it verbatim, and in the rest
replace `::`, then `:`, then spaces by hyphens.  A name with no underscore is
returned unchanged. -/
def sanitize_branch_name (name : List Char) : List Char :=
  match pySplitUnd name with
  | none => name
  | some (pre, rest) => pre ++ '_' :: subSpaces (subColon (subDD rest))

/-- Adjacent separator pair somewhere in the string (used to state the
claim's "consecutive separators collapsed to one" requirement). -/
def hasAdjacentHyphens : List Char → Bool
  | '-' :: '-' :: _ => true
  | _ :: t => hasAdjacentHyphens t
  | [] => false

/-- Line content followed by a newline character (a line of a
`splitlines(keepends=True)` decomposition of newline-terminated text). -/
def wNl (l : List Char) : List Char :=
  l ++ ['\n']

/-- Newline-terminated text built from a list of line contents. -/
def mkText (ls : List (List Char)) : List Char :=
  (ls.map wNl).flatten

/-- Lines joined by `\n` (Python `"\n".join(...)`). -/
def joinNl : List (List Char) → List Char
  | [] => []
  | [l] => l
  | l :: ls => l ++ '\n' :: joinNl ls

/-- Index of the first diff line starting with `@@`
(llm_patch_generator.py lines 48-57, the scan for the hunk header). -/
def findHunkIdx : List (List Char) → Option Nat
  | [] => none
  | l :: t =>
    if ['@', '@'].isPrefixOf l then some 0 else (findHunkIdx t).map (· + 1)

/-- The replay loop of `apply_diff_to_source` (llm_patch_generator.py lines
62-82) together with the trailing copy of the remaining original lines: a
context line copies `lines[idx]` when in range (the context text itself is
ignored), a deletion advances `idx` unconditionally, an addition appends the
line text plus a newline, and any other line is ignored. -/
def applyDiffLoop : List (List Char) → List (List Char) → Nat → List (List Char)
  | [], lines, idx => lines.drop idx
  | dl :: rest, lines, idx =>
    if [' '].isPrefixOf dl then
      match lines.get? idx with
      | some o => o :: applyDiffLoop rest lines (idx + 1)
      | none => applyDiffLoop rest lines idx
    else if ['-'].isPrefixOf dl then applyDiffLoop rest lines (idx + 1)
    else if ['+'].isPrefixOf dl then (dl.drop 1 ++ ['\n']) :: applyDiffLoop rest lines idx
    else applyDiffLoop rest lines idx

/-- `apply_diff_to_source` (llm_patch_generator.py lines 30-84).  The first
`@@` line is located and its old-start field is parsed (`int(...)` may raise
`ValueError`, modelled as `none`) but the parsed value is a dead store; every
diff line after that header is then replayed from line 1 of the original.
With no `@@` line the original is returned unchanged. -/
def apply_diff_to_source (original_source diff_content : List Char) : Option (List Char) :=
  let lines := pySplitlinesKeep original_source
  let diffLines := pySplitlines diff_content
  match findHunkIdx diffLines with
  | none => some original_source
  | some i =>
    let headerLine := diffLines.getD i []
    let parts := pySplitWS headerLine
    if parts.length ≥ 3 then
      match pyInt (((parts.getD 1 []).drop 1).takeWhile (· ≠ ',')) with
      | none => none
      | some _oldStart => some ((applyDiffLoop (diffLines.drop (i + 1)) lines 0).flatten)
    else some ((applyDiffLoop (diffLines.drop (i + 1)) lines 0).flatten)

/-- Modelled from the claim's words (claim C10): the same applier but
replaying only the body of the FIRST hunk, i.e. the diff lines strictly
between the first `@@` header and the next `@@` header.  This is what "only
the first hunk is processed" would compute; it is compared against
`apply_diff_to_source`, which replays every line after the first header. -/
def applyFirstHunkOnly (original_source diff_content : List Char) : Option (List Char) :=
  let lines := pySplitlinesKeep original_source
  let diffLines := pySplitlines diff_content
  match findHunkIdx diffLines with
  | none => some original_source
  | some i =>
    let headerLine := diffLines.getD i []
    let parts := pySplitWS headerLine
    let body := (diffLines.drop (i + 1)).takeWhile fun l => !(['@', '@'].isPrefixOf l)
    if parts.length ≥ 3 then
      match pyInt (((parts.getD 1 []).drop 1).takeWhile (· ≠ ',')) with
      | none => none
      | some _oldStart => some ((applyDiffLoop body lines 0).flatten)
    else some ((applyDiffLoop body lines 0).flatten)

/-- Structural restatement of `applyDiffLoop` used in proofs: the original
lines not yet consumed are carried directly instead of through an index. -/
def applyBodyS : List (List Char) → List (List Char) → List (List Char)
  | [], rest => rest
  | dl :: b, rest =>
    if [' '].isPrefixOf dl then
      match rest with
      | [] => applyBodyS b []
      | o :: r => o :: applyBodyS b r
    else if ['-'].isPrefixOf dl then applyBodyS b rest.tail
    else if ['+'].isPrefixOf dl then (dl.drop 1 ++ ['\n']) :: applyBodyS b rest
    else applyBodyS b rest

/-- A correct single-hunk edit script: `HunkBody body old new` holds when the
diff body `body` (context lines `" "++l`, deletions `"-"++l`, additions
`"+"++l`) transforms the line contents `old` into the line contents `new`.
This is exactly what "a unified diff produced by diffing `old` against `new`"
provides for the hunk's covered region. -/
inductive HunkBody : List (List Char) → List (List Char) → List (List Char) → Prop
  | nil : HunkBody [] [] []
  | ctx (l : List Char) {b o n : List (List Char)} :
      HunkBody b o n → HunkBody ((' ' :: l) :: b) (l :: o) (l :: n)
  | del (l : List Char) {b o n : List (List Char)} :
      HunkBody b o n → HunkBody (('-' :: l) :: b) (l :: o) n
  | add (l : List Char) {b o n : List (List Char)} :
      HunkBody b o n → HunkBody (('+' :: l) :: b) o (l :: n)

/-- The unified-diff hunk header `@@ -a,b +c,d @@`. -/
def mkHunkHeader (a b c d : Nat) : List Char :=
  ('@' :: '@' :: ' ' :: '-' :: (natToChars a ++ ',' :: natToChars b))
    ++ (' ' :: '+' :: (natToChars c ++ ',' :: natToChars d))
    ++ [' ', '@', '@']

/-- Text of a single-hunk unified diff: the header line followed by the body
lines, each line separated by a newline. -/
def mkDiffText (header : List Char) (body : List (List Char)) : List Char :=
  joinNl (header :: body)

/-- A character that never occurs inside a source line: not a line break and
not a carriage return (so that the modelled `splitlines` agrees with Python
on text built from such lines). -/
def lineChar (c : Char) : Bool :=
  !(isPyBreak c)

/-- Python's `sub in s` substring test. -/
def isSubstr (needle : List Char) : List Char → Bool
  | [] => needle.isEmpty
  | c :: t => needle.isPrefixOf (c :: t) || isSubstr needle t

/-- `agent_lib.test_runner.TestFailure` (test_runner.py lines 35-41). -/
structure TestFailure where
  test_name : List Char
  file_path : List Char
  error_output : List Char
deriving DecidableEq, Repr, Inhabited

/-- `agent_lib.test_runner.TestResult` (test_runner.py lines 44-50). -/
structure TestResult where
  passed : Bool
  failures : List TestFailure
  raw_output : List Char
deriving DecidableEq, Repr

/-- The discovery-error dictionary produced by `check_for_discovery_errors`
and `fast_syntax_precheck` (keys `file_path` and `error`; the constant
`status` key is omitted). -/
structure DiscoveryErrorInfo where
  file_path : List Char
  error : List Char
deriving DecidableEq, Repr

/-- One match attempt for the regex `(\S+\.py):(\d+): SyntaxError: (.+)`
anchored at the start of `cs`, with the first group extending to exactly `k`
characters (`run` is the maximal non-whitespace run at `cs`).  Returns the
three groups (file, line number, message). -/
def synCheckAt (cs run : List Char) (k : Nat) : Option (List Char × List Char × List Char) :=
  if 4 ≤ k && k ≤ run.length && (run.take k).drop (k - 3) == ['.', 'p', 'y'] then
    match cs.drop k with
    | ':' :: a2 =>
      let ds := a2.takeWhile isPyDigit
      if ds.isEmpty then none
      else
        let a3 := a2.drop ds.length
        if (": SyntaxError: ".toList).isPrefixOf a3 then
          let msg := (a3.drop 15).takeWhile (· ≠ '\n')
          if msg.isEmpty then none else some (run.take k, ds, msg)
        else none
    | _ => none
  else none

/-- Greedy backtracking over the end of the first group: the largest
extent `k` admitting a full match wins, as in the Python regex engine. -/
def synAtK (cs run : List Char) : Nat → Option (List Char × List Char × List Char)
  | 0 => none
  | k + 1 =>
    match synCheckAt cs run (k + 1) with
    | some r => some r
    | none => synAtK cs run k

/-- Match of the syntax-error pattern anchored at `cs`. -/
def trySynAt (cs : List Char) : Option (List Char × List Char × List Char) :=
  let run := cs.takeWhile fun c => !isPyWS c
  synAtK cs run run.length

/-- `re.search` of `(\S+\.py):(\d+): SyntaxError: (.+)` (test_runner.py line
162): leftmost match over all start positions. -/
def searchSynErr : List Char → Option (List Char × List Char × List Char)
  | [] => none
  | c :: t =>
    match trySynAt (c :: t) with
    | some r => some r
    | none => searchSynErr t

/-- Literal part of the import-error pattern (test_runner.py line 173). -/
def impLit : List Char :=
  "ImportError while importing test module '".toList

/-- Match of `ImportError while importing test module '([^']+)'` anchored at
`cs`; returns the quoted module path. -/
def tryImpAt (cs : List Char) : Option (List Char) :=
  if impLit.isPrefixOf cs then
    let rest := cs.drop impLit.length
    let modp := rest.takeWhile fun c => c ≠ '\''
    if modp.isEmpty then none
    else
      match rest.drop modp.length with
      | '\'' :: _ => some modp
      | _ => none
  else none

/-- `re.search` of the import-error pattern: leftmost match. -/
def searchImpErr : List Char → Option (List Char)
  | [] => none
  | c :: t =>
    match tryImpAt (c :: t) with
    | some r => some r
    | none => searchImpErr t

/-- Match of `(ModuleNotFoundError|ImportError): (.+)` anchored at `cs`
(test_runner.py line 178); the left alternative is tried first. -/
def tryModErrAt (cs : List Char) : Option (List Char × List Char) :=
  if ("ModuleNotFoundError: ".toList).isPrefixOf cs then
    let msg := (cs.drop 21).takeWhile (· ≠ '\n')
    if msg.isEmpty then none else some ("ModuleNotFoundError".toList, msg)
  else if ("ImportError: ".toList).isPrefixOf cs then
    let msg := (cs.drop 13).takeWhile (· ≠ '\n')
    if msg.isEmpty then none else some ("ImportError".toList, msg)
  else none

/-- `re.search` of the module-error pattern: leftmost match. -/
def searchModErr : List Char → Option (List Char × List Char)
  | [] => none
  | c :: t =>
    match tryModErrAt (c :: t) with
    | some r => some r
    | none => searchModErr t

/-- `test_runner.check_for_discovery_errors` (test_runner.py lines 148-194):
search the combined output for the syntax-error pattern first, then the
import-error pattern; normalize to `"SyntaxError: <msg> (line <n>)"` or
`"<ErrorKind>: <detail>"`. -/
def check_for_discovery_errors (stdout stderr : List Char) : Option DiscoveryErrorInfo :=
  let combined := stdout ++ stderr
  match searchSynErr combined with
  | some (fp, ln, msg) =>
    some ⟨fp, ("SyntaxError: ".toList) ++ msg ++ (" (line ".toList) ++ ln ++ [')']⟩
  | none =>
    match searchImpErr combined with
    | some modp =>
      match searchModErr combined with
      | some (kind, msg) => some ⟨modp, kind ++ (": ".toList) ++ msg⟩
      | none => some ⟨modp, "Import error during test discovery".toList⟩
    | none => none

/-- Line-collection loop of `_extract_error_message` (test_runner.py lines
232-245): collect from the line containing `FAILED <nodeid>` up to (not
including) the next line starting with `FAILED ` or `=`. -/
def extractGo (nodeid : List Char) : List (List Char) → Bool → List (List Char)
  | [], _ => []
  | l :: ls, inSec =>
    if isSubstr (("FAILED ".toList) ++ nodeid) l then l :: extractGo nodeid ls true
    else if inSec then
      if ("FAILED ".toList).isPrefixOf l || ['='].isPrefixOf l then []
      else l :: extractGo nodeid ls true
    else extractGo nodeid ls false

/-- `test_runner._extract_error_message` (test_runner.py lines 218-251):
the joined, stripped excerpt, falling back to the full output when nothing
was collected. -/
def extract_error_message (output nodeid : List Char) : List Char :=
  let el := extractGo nodeid (pySplitlines output) false
  if el.isEmpty then output else pyStrip (joinNl el)

/-- Python `nodeid.split("::", 1)` when `::` occurs: the part before the
first `::` and the part after it; `none` when there is no `::`. -/
def pySplitDC : List Char → Option (List Char × List Char)
  | [] => none
  | ':' :: ':' :: t => some ([], t)
  | c :: t => (pySplitDC t).map (fun p => (c :: p.1, p.2))

/-- The `FAILED <file>::<test>` scan of `_parse_pytest_failures`
(test_runner.py lines 266-288), before the empty-list fallback. -/
def scanFailures (output : List Char) : List TestFailure :=
  (pySplitlines output).filterMap fun line =>
    if ("FAILED ".toList).isPrefixOf line && isSubstr [':', ':'] line then
      let parts := pySplitWS line
      if parts.length ≥ 2 then
        let nodeid := parts.getD 1 []
        match pySplitDC nodeid with
        | some (fp, tp) => some ⟨tp, fp, extract_error_message output nodeid⟩
        | none => none
      else none
    else none

/-- `test_runner._parse_pytest_failures` (test_runner.py lines 254-298): the
marker scan plus the synthetic `unknown` record when no marker was found. -/
def parse_pytest_failures (output : List Char) : List TestFailure :=
  let failures := scanFailures output
  if failures.isEmpty then [⟨"unknown".toList, "unknown".toList, output⟩]
  else failures

/-- Outcome of the `subprocess.run` call inside `run_tests` (test_runner.py
lines 96-111): either an exception (`TimeoutExpired` / `FileNotFoundError`,
carrying `str(e)`) or completion with an exit code and captured streams. -/
inductive ExecOutcome where
  | raised (msg : List Char)
  | completed (returncode : Int) (stdout stderr : List Char)
deriving DecidableEq, Repr

/-- External inputs of one `run_tests` call: the result of the
`fast_syntax_precheck` filesystem walk (test_runner.py lines 197-215,
`none` = no syntax error found) and the subprocess outcome. -/
structure RunTestsEnv where
  precheck : Option DiscoveryErrorInfo
  exec : ExecOutcome
deriving DecidableEq, Repr

/-- `test_runner.run_tests` (test_runner.py lines 53-145).  The shlex
tokenization and the `pytest` → `python -m pytest` rewrite (lines 83-94)
only configure the external command, whose outcome `env.exec` supplies.
Exit code 0 and the no-tests-collected code 5 both count as passing. -/
def run_tests (env : RunTestsEnv) (command : List Char) : TestResult :=
  match env.precheck with
  | some se =>
    { passed := false
      failures := [⟨se.error, se.file_path, se.error⟩]
      raw_output := ("Syntax error detected: ".toList) ++ se.error }
  | none =>
    match env.exec with
    | .raised msg =>
      { passed := false
        failures := []
        raw_output := ("Error running command '".toList) ++ command ++ ("': ".toList) ++ msg }
    | .completed rc out err =>
      let output := out ++ err
      if rc = 0 then { passed := true, failures := [], raw_output := output }
      else if rc = 5 then { passed := true, failures := [], raw_output := output }
      else
        match check_for_discovery_errors out err with
        | some d =>
          { passed := false
            failures := [⟨d.error, d.file_path, d.error⟩]
            raw_output := output }
        | none =>
          { passed := false, failures := parse_pytest_failures output, raw_output := output }

/-- `agent_lib.llm_patch_generator.PatchResult` (llm_patch_generator.py
lines 99-104).  The `confidence_score` field is an optional float that no
code in the repository ever assigns; it is omitted from the model. -/
structure PatchResult where
  diff_content : List Char
deriving DecidableEq, Repr

/-- External inputs of an `LLMPatchGenerator` call: the outcome of
`file_path.read_text` (`Except.error` carries the exception text of a
`FileNotFoundError` / `UnicodeDecodeError`), the outcome of the `k`-th
`_call_llm` invocation, and whether `ast.parse` accepts a given source. -/
structure GenEnv where
  sourceRead : Except (List Char) (List Char)
  llm : Nat → Except (List Char) (List Char)
  astOk : List Char → Bool

/-- `LLMPatchGenerator.ast_validate_patch` (llm_patch_generator.py lines
171-192): apply the diff in memory and parse the result; every failure
(including the `ValueError` from a malformed hunk header) becomes `false`. -/
def ast_validate_patch (env : GenEnv) (diff_content original_source : List Char) : Bool :=
  match apply_diff_to_source original_source diff_content with
  | none => false
  | some modified => env.astOk modified

/-- Result of a patch-generation entry point: the returned `PatchResult` or
the `PatchGenerationError` message, plus how many `_call_llm` invocations
and how many `ast_validate_patch` checks were made. -/
structure GenOut where
  res : Except (List Char) PatchResult
  llmCalls : Nat
  astChecks : Nat
deriving Repr

/-- The attempt loop of `generate_patch_with_retry` (llm_patch_generator.py
lines 219-260).  `aLeft` counts the attempts still allowed (`maxRetries + 1`
at entry), `attempt` is the current 0-based attempt index, `lc`/`ac` count
backend calls and AST checks so far.  The `aLeft = 0` base case is the
unreachable line-260 fallthrough. -/
def gpwrLoop (env : GenEnv) (original_source : List Char) (maxRetries : Nat) :
    Nat → Nat → Nat → Nat → GenOut
  | 0, _, lc, ac => ⟨.error ("Unexpected error in patch generation".toList), lc, ac⟩
  | aLeft + 1, attempt, lc, ac =>
    match env.llm lc with
    | .error e =>
      if attempt = maxRetries then
        ⟨.error (("Failed to generate patch: ".toList) ++ e), lc + 1, ac⟩
      else gpwrLoop env original_source maxRetries aLeft (attempt + 1) (lc + 1) ac
    | .ok diff =>
      if ast_validate_patch env diff original_source then
        ⟨.ok ⟨diff⟩, lc + 1, ac + 1⟩
      else if attempt = maxRetries then
        ⟨.error (("Failed to generate syntactically valid patch after ".toList)
          ++ natToChars (maxRetries + 1) ++ (" attempts".toList)), lc + 1, ac + 1⟩
      else gpwrLoop env original_source maxRetries aLeft (attempt + 1) (lc + 1) (ac + 1)

/-- `LLMPatchGenerator.generate_patch_with_retry` (llm_patch_generator.py
lines 194-260): read the original source (raising
`"Cannot read source file <path>: <e>"` when unreadable, before any backend
call), then run the bounded attempt loop.  `pathStr` is the string form of
`repo_path / test_failure.file_path`. -/
def generate_patch_with_retry (env : GenEnv) (pathStr : List Char)
    (maxRetries : Nat := 2) : GenOut :=
  match env.sourceRead with
  | .error e =>
    ⟨.error (("Cannot read source file ".toList) ++ pathStr ++ (": ".toList) ++ e), 0, 0⟩
  | .ok src => gpwrLoop env src maxRetries (maxRetries + 1) 0 0 0

/-- `LLMPatchGenerator.generate_patch` (llm_patch_generator.py lines
119-147): try the retry path; when it fails with a message containing
`"Cannot read source file"`, fall back to a single unchecked `_call_llm`
call; any other error is re-raised. -/
def generate_patch (env : GenEnv) (pathStr : List Char) : GenOut :=
  let r := generate_patch_with_retry env pathStr
  match r.res with
  | .ok _ => r
  | .error e =>
    if isSubstr ("Cannot read source file".toList) e then
      match env.llm r.llmCalls with
      | .ok d => ⟨.ok ⟨d⟩, r.llmCalls + 1, r.astChecks⟩
      | .error fe =>
        ⟨.error (("Failed to generate patch: ".toList) ++ fe), r.llmCalls + 1, r.astChecks⟩
    else r

/-- `agent_lib.metrics.PatchMetrics` (metrics.py lines 35-44).  Time values
are modelled in integral milliseconds, so the float arithmetic
`round((end - start) * 1000)` becomes exact integer subtraction. -/
structure PatchMetrics where
  test_name : List Char
  llm_backend : List Char
  model_name : List Char
  iterations : Nat
  success : Bool
  duration_ms : Int
deriving DecidableEq, Repr

/-- Python `s.split(":", 1)` when a colon occurs. -/
def pySplitColon : List Char → Option (List Char × List Char)
  | [] => none
  | c :: t =>
    if c = ':' then some ([], t)
    else (pySplitColon t).map (fun p => (c :: p.1, p.2))

/-- `pathlib.Path(p).stem`: the final path component without its last
suffix.  A suffix requires a dot that is neither the first nor the last
character of the component. -/
def pathStem (p : List Char) : List Char :=
  let bn := (p.reverse.takeWhile (fun c => c ≠ '/')).reverse
  let r := bn.reverse
  let pre := r.takeWhile (fun c => c ≠ '.')
  let rest := r.drop (pre.length + 1)
  if pre.isEmpty || rest.isEmpty then bn else rest.reverse

/-- `dev_agent._parse_model_path` (dev_agent.py lines 258-275): an optional
`backend:` part before the model path; without one the backend defaults to
`llama-cpp`.  The model name is the path's stem. -/
def parse_model_path (model_path : List Char) : List Char × List Char :=
  match pySplitColon model_path with
  | some (backend, pathPart) => (backend, pathStem pathPart)
  | none => ("llama-cpp".toList, pathStem model_path)

/-- The configuration keys `main` reads (values returned by
`dev_agent._load_config`, dev_agent.py lines 278-302; the spec treats
loading as external, so the model is parameterized over the values).
The branch-name key of the `git` table is called `branchPref` here. -/
structure Config where
  max_iterations : Nat
  test_command : List Char
  branchPref : List Char
  remote : List Char
  auto_pr : Bool
  model_path : List Char
deriving Repr

/-- The literal defaults `_load_config` returns (metrics keys omitted). -/
def defaultConfig : Config :=
  ⟨5, "pytest --maxfail=1".toList, "dev-agent/fix".toList, "origin".toList,
    true, "llama-cpp:models/codellama.gguf".toList⟩

/-- External inputs of one `dev_agent.main` call.  `testResult t` is the
`TestResult` of the `t`-th call to `test_runner.run_tests` (initial runs and
re-runs share the counter); per-iteration indices address the generator and
git calls of that iteration; `timeMs t` is the `t`-th `time.time()` reading
in integral milliseconds.  `applyPatch = false` models the
`PatchApplicationError` raise of `GitTool.apply_patch`. -/
structure MainEnv where
  testResult : Nat → TestResult
  generate : Nat → Except (List Char) PatchResult
  createBranch : Nat → Bool
  validate : Nat → Bool
  applyPatch : Nat → Bool
  commitOk : Nat → Bool
  pushOk : Nat → Bool
  openPrOk : Nat → Bool
  timeMs : Nat → Int

/-- How a `main` call terminated.  `passedImmediate` is the `sys.exit(0)` of
line 360 (a fresh test run passed), `convergedRetest` the `sys.exit(0)` of
line 435 (the re-run after a patch passed); `noFailuresCrash` and
`generationCrash` are the uncaught `NoTestsFoundError` (line 363) and
`PatchGenerationError` (line 372), which terminate the interpreter with
process exit status 1. -/
inductive Term where
  | passedImmediate
  | convergedRetest
  | exhausted
  | branchFailed
  | validationFailed
  | applicationFailed
  | noFailuresCrash
  | generationCrash
deriving DecidableEq, Repr

/-- Observable outcome of a `main` call: the termination kind, the process
exit code, the number of `generate_patch` calls, the metrics records
appended, the number of `time.time()` and `run_tests` calls consumed, the
number of loop iterations entered, and the branch names computed. -/
structure MainRes where
  term : Term
  code : Nat
  gens : Nat
  metrics : List PatchMetrics
  timeCalls : Nat
  testCalls : Nat
  itersDone : Nat
  branches : List (List Char)
deriving Repr

/-- The discovery-error detection of the `TestRunner.run_tests` wrapper
(dev_agent.py lines 63-68): a non-passing result whose single failure has
`test_name == error_output`. -/
def isDiscoveryShape (tr : TestResult) : Bool :=
  match tr.failures with
  | [f] => !tr.passed && f.test_name == f.error_output
  | _ => false

/-- Per-iteration classification in `main` (dev_agent.py lines 350-371):
discovery errors become a synthetic failure named `discovery_error`, a pass
exits, an empty failure list raises `NoTestsFoundError` (uncaught), and
otherwise the FIRST failure is selected. -/
inductive ClassifyOut where
  | fix (f : TestFailure)
  | pass
  | anomaly
deriving Repr

/-- Classification of one wrapped test result, following the branch order of
dev_agent.py lines 351-371. -/
def classifyMain (tr : TestResult) : ClassifyOut :=
  if isDiscoveryShape tr then
    match tr.failures with
    | f :: _ => .fix ⟨"discovery_error".toList, f.file_path, f.error_output⟩
    | [] => .anomaly
  else if tr.passed then .pass
  else
    match tr.failures with
    | [] => .anomaly
    | f :: _ => .fix f

/-- The iteration loop of `dev_agent.main` (dev_agent.py lines 340-465).
Arguments after the backend/model names: remaining iterations, 0-based
iteration index, `time.time()` call count, `run_tests` call count,
`generate_patch` call count, the current failure, the metrics records so
far, and the branch names so far.  The `rem = 0` case is the
max-iterations-reached epilogue (lines 439-465). -/
def mainLoop (env : MainEnv) (cfg : Config) (be mo : List Char) :
    Nat → Nat → Nat → Nat → Nat → Option TestFailure → List PatchMetrics →
    List (List Char) → MainRes
  | 0, iteration, tc, tec, g, curF, ms, brs =>
    let tEnd := env.timeMs tc
    let dur := tEnd - env.timeMs 0
    let nm := match curF with
      | some f => f.test_name
      | none => "unknown_failure".toList
    { term := .exhausted, code := 1, gens := g
      metrics := ms ++ [⟨nm, be, mo, cfg.max_iterations, false, dur⟩]
      timeCalls := tc + 1, testCalls := tec, itersDone := iteration, branches := brs }
  | rem + 1, iteration, tc, tec, g, curF, ms, brs =>
    let tIterStart := env.timeMs tc
    let tc1 := tc + 1
    let tr := env.testResult tec
    let tec1 := tec + 1
    match classifyMain tr with
    | .pass =>
      { term := .passedImmediate, code := 0, gens := g, metrics := ms
        timeCalls := tc1, testCalls := tec1, itersDone := iteration + 1, branches := brs }
    | .anomaly =>
      { term := .noFailuresCrash, code := 1, gens := g, metrics := ms
        timeCalls := tc1, testCalls := tec1, itersDone := iteration + 1, branches := brs }
    | .fix f =>
      match env.generate iteration with
      | .error _ =>
        { term := .generationCrash, code := 1, gens := g + 1, metrics := ms
          timeCalls := tc1, testCalls := tec1, itersDone := iteration + 1, branches := brs }
      | .ok _patch =>
        let g1 := g + 1
        let bn0 := sanitize_branch_name (cfg.branchPref ++ '_' :: f.test_name)
        let bn := if 0 < iteration then bn0 ++ '_' :: natToChars (iteration + 1) else bn0
        let brs1 := brs ++ [bn]
        if !(env.createBranch iteration) then
          { term := .branchFailed, code := 2, gens := g1, metrics := ms
            timeCalls := tc1, testCalls := tec1, itersDone := iteration + 1, branches := brs1 }
        else if !(env.validate iteration) then
          { term := .validationFailed, code := 2, gens := g1, metrics := ms
            timeCalls := tc1, testCalls := tec1, itersDone := iteration + 1, branches := brs1 }
        else if !(env.applyPatch iteration) then
          { term := .applicationFailed, code := 2, gens := g1, metrics := ms
            timeCalls := tc1, testCalls := tec1, itersDone := iteration + 1, branches := brs1 }
        else
          let _commit := env.commitOk iteration
          let rt := env.testResult tec1
          let tec2 := tec1 + 1
          if rt.passed then
            let tIterEnd := env.timeMs tc1
            let tc2 := tc1 + 1
            let dur := tIterEnd - tIterStart
            let pushed := env.pushOk iteration
            let _prOpened := pushed && cfg.auto_pr && env.openPrOk iteration
            { term := .convergedRetest, code := 0, gens := g1
              metrics := ms ++ [⟨f.test_name, be, mo, iteration + 1, true, dur⟩]
              timeCalls := tc2, testCalls := tec2, itersDone := iteration + 1
              branches := brs1 }
          else
            mainLoop env cfg be mo rem (iteration + 1) tc1 tec2 g1 (some f) ms brs1

/-- `dev_agent.main` (dev_agent.py lines 305-465): read the start time
(clock call 0), parse the backend/model names, and run the iteration loop.
Configuration loading (always the literal defaults, its `ConfigError` exit-1
branch being unreachable) and the dead `NoTestsFoundError` handler of line
347 (the functional `run_tests` never raises it) do not appear. -/
def mainRun (env : MainEnv) (cfg : Config) : MainRes :=
  let pm := parse_model_path cfg.model_path
  mainLoop env cfg pm.1 pm.2 cfg.max_iterations 0 1 0 0 none [] []

/-- Result of one `dev-agent` subprocess invocation as the Supervisor
observes it (supervisor.py line 107): exit code and captured stderr. -/
structure SubRes where
  returncode : Int
  stderrS : List Char
deriving DecidableEq, Repr

/-- External inputs of a Supervisor run: `invoke i a` is the subprocess
result of attempt `a` (0-based) of subtask `i` (0-based). -/
structure SupEnv where
  invoke : Nat → Nat → SubRes

/-- The three success checks of `Supervisor._execute_subtask`
(supervisor.py lines 116-138): exit code 0, the
`"No test failures detected"` marker in stderr, or a `PermissionError`
mentioning `venv` in stderr. -/
def subtaskAttemptOk (r : SubRes) : Bool :=
  r.returncode == 0
    || isSubstr ("No test failures detected".toList) r.stderrS
    || (isSubstr ("PermissionError".toList) r.stderrS && isSubstr ("venv".toList) r.stderrS)

/-- The attempt loop of `Supervisor._execute_subtask` (supervisor.py lines
87-151), returning success and the list of invocations `(subtask, attempt)`
made.  `aLeft` is `max_retries + 1` at entry; the fuel base case is the
unreachable loop fallthrough. -/
def execAttempts (env : SupEnv) (mr i : Nat) : Nat → Nat → Bool × List (Nat × Nat)
  | 0, _ => (false, [])
  | aLeft + 1, attempt =>
    if subtaskAttemptOk (env.invoke i attempt) then (true, [(i, attempt)])
    else if attempt < mr then
      ((execAttempts env mr i aLeft (attempt + 1)).1,
        (i, attempt) :: (execAttempts env mr i aLeft (attempt + 1)).2)
    else (false, [(i, attempt)])

/-- `Supervisor._execute_subtask` for subtask `i`. -/
def execSubtask (env : SupEnv) (mr i : Nat) : Bool × List (Nat × Nat) :=
  execAttempts env mr i (mr + 1) 0

/-- The subtask loop of `Supervisor.run` (supervisor.py lines 221-234),
after story parsing, over subtasks `i, i+1, ...`: exit code 1 as soon as a
subtask fails all attempts, 0 when all complete. -/
def supLoop (env : SupEnv) (mr : Nat) : Nat → Nat → List (Nat × Nat) → Nat × List (Nat × Nat)
  | 0, _, log => (0, log)
  | remS + 1, i, log =>
    if (execSubtask env mr i).1 then
      supLoop env mr remS (i + 1) (log ++ (execSubtask env mr i).2)
    else (1, log ++ (execSubtask env mr i).2)

/-- `Supervisor.run` in execute mode (story already parsed into
`numSubtasks` subtasks, `dry_run = False`), with the `max_retries` default
of `Supervisor.__init__`.  Returns the exit code and the full invocation
log. -/
def supervisorRun (env : SupEnv) (numSubtasks : Nat) (maxRetries : Nat := 2) :
    Nat × List (Nat × Nat) :=
  supLoop env maxRetries numSubtasks 0 []

/-- Witness environment for the fail-fast property: three subtasks, the
second of which (0-based index 1) always fails with no
treated-as-success marker in stderr. -/
def envSupW : SupEnv :=
  ⟨fun i _a => if i == 1 then ⟨1, "boom".toList⟩ else ⟨0, []⟩⟩

/-- Witness environment for the unreadable-source path of the patch
generator: reading the source raises, the first backend call returns a
diff. -/
def genEnvW : GenEnv :=
  { sourceRead := .error ("No such file or directory".toList)
    llm := fun _ => .ok ("some diff".toList)
    astOk := fun _ => false }

/-- Witness environment: a completed, non-passing test run whose combined
output contains both a discovery-error pattern and a `FAILED` marker. -/
def envDiscW : RunTestsEnv :=
  ⟨none, .completed 1
    ("tests/x.py:3: SyntaxError: bad\nFAILED tests/y.py::test_a - boom\n".toList) []⟩

/-- Witness environment: a completed, non-passing run with no markers at
all, for the synthetic-unknown fallback. -/
def envUnknownW : RunTestsEnv :=
  ⟨none, .completed 2 ("everything exploded".toList) []⟩

/-- Witness environment for the iteration budget: every test run fails with
one ordinary failure, generation/branching/validation/application always
succeed, the clock advances 100ms per reading. -/
def envBudgetW : MainEnv :=
  { testResult := fun _ =>
      ⟨false, [⟨"test_a".toList, "y.py".toList, "err".toList⟩], "raw".toList⟩
    generate := fun _ => .ok ⟨"diff".toList⟩
    createBranch := fun _ => true
    validate := fun _ => true
    applyPatch := fun _ => true
    commitOk := fun _ => true
    pushOk := fun _ => true
    openPrOk := fun _ => true
    timeMs := fun t => (100 : Int) * t }

/-- Environment in which the first branch creation fails (tests fail
normally, generation succeeds): `main` exits 2 without any patch validation
or application having failed. -/
def envBranchFailW : MainEnv :=
  { testResult := fun _ =>
      ⟨false, [⟨"test_a".toList, "y.py".toList, "err".toList⟩], "raw".toList⟩
    generate := fun _ => .ok ⟨"diff".toList⟩
    createBranch := fun _ => false
    validate := fun _ => true
    applyPatch := fun _ => true
    commitOk := fun _ => true
    pushOk := fun _ => true
    openPrOk := fun _ => true
    timeMs := fun t => (100 : Int) * t }

/-- Environment converging at the first iteration via a successful retest,
with clock readings 0, 100, 150 ms: the recorded duration is 50 (the final
iteration) while the whole call spans 150. -/
def envClockW : MainEnv :=
  { testResult := fun t =>
      if t == 0 then ⟨false, [⟨"test_a".toList, "y.py".toList, "err".toList⟩], "raw".toList⟩
      else ⟨true, [], "ok".toList⟩
    generate := fun _ => .ok ⟨"diff".toList⟩
    createBranch := fun _ => true
    validate := fun _ => true
    applyPatch := fun _ => true
    commitOk := fun _ => true
    pushOk := fun _ => true
    openPrOk := fun _ => true
    timeMs := fun t => if t == 0 then 0 else if t == 1 then 100 else 150 }

/-- Environment whose very first test run passes: `main` exits 0 without
appending any metrics record. -/
def envPassW : MainEnv :=
  { testResult := fun _ => ⟨true, [], "ok".toList⟩
    generate := fun _ => .ok ⟨"diff".toList⟩
    createBranch := fun _ => true
    validate := fun _ => true
    applyPatch := fun _ => true
    commitOk := fun _ => true
    pushOk := fun _ => true
    openPrOk := fun _ => true
    timeMs := fun t => (100 : Int) * t }

/-! Theorems.  Each claim of the specification review is settled below;
helper lemmas come first. -/

theorem pySplitUnd_append (pre rest : List Char) (h : '_' ∉ pre) :
    pySplitUnd (pre ++ '_' :: rest) = some (pre, rest) := by
  induction pre with
  | nil => rfl
  | cons c t ih =>
    have hc : c ≠ '_' := fun e => h (e ▸ List.mem_cons_self c t)
    have ht : '_' ∉ t := fun m => h (List.mem_cons_of_mem _ m)
    rw [List.cons_append]
    simp [pySplitUnd, hc, ih ht]

theorem subColon_no_colon (xs : List Char) : ':' ∉ subColon xs := by
  intro hmem
  simp only [subColon, List.mem_map] at hmem
  obtain ⟨a, _, ha⟩ := hmem
  by_cases h : a = ':' <;> simp [h] at ha

theorem subSpaces_no_space (xs : List Char) : ' ' ∉ subSpaces xs := by
  intro hmem
  simp only [subSpaces, List.mem_map] at hmem
  obtain ⟨a, _, ha⟩ := hmem
  by_cases h : a = ' ' <;> simp [h] at ha

theorem subSpaces_keeps_no_colon (xs : List Char) (h : ':' ∉ xs) : ':' ∉ subSpaces xs := by
  intro hmem
  simp only [subSpaces, List.mem_map] at hmem
  obtain ⟨a, hax, ha⟩ := hmem
  by_cases hsp : a = ' '
  · simp [hsp] at ha
  · simp [hsp] at ha
    exact h (ha ▸ hax)

theorem isPrefixOf_append_self (l t : List Char) : l.isPrefixOf (l ++ t) = true := by
  rw [List.isPrefixOf_iff_prefix]
  exact List.prefix_append l t

/-- Claim C6 (corrected): for an input `<pre>_<rest>` whose part before the
first underscore contains no underscore, `_sanitize_branch_name` keeps that
part verbatim at the start and leaves no colon and no space anywhere in the
transformed remainder.  (The claim's further requirements — consecutive
separators collapsed and boundary separators trimmed — are refuted by
`sanitize_not_collapsed_cex`.) -/
theorem sanitize_removes_invalid_chars (pre rest : List Char) (h : '_' ∉ pre) :
    (pre ++ ['_']).isPrefixOf (sanitize_branch_name (pre ++ '_' :: rest)) = true
    ∧ ∀ c ∈ (sanitize_branch_name (pre ++ '_' :: rest)).drop (pre.length + 1),
        c ≠ ':' ∧ c ≠ ' ' := by
  have heq : sanitize_branch_name (pre ++ '_' :: rest)
      = pre ++ '_' :: subSpaces (subColon (subDD rest)) := by
    unfold sanitize_branch_name
    rw [pySplitUnd_append pre rest h]
  rw [heq]
  constructor
  · have : pre ++ '_' :: subSpaces (subColon (subDD rest))
        = (pre ++ ['_']) ++ subSpaces (subColon (subDD rest)) := by simp
    rw [this]
    exact isPrefixOf_append_self _ _
  · intro c hc
    have hdrop : (pre ++ '_' :: subSpaces (subColon (subDD rest))).drop (pre.length + 1)
        = subSpaces (subColon (subDD rest)) := by
      rw [show pre.length + 1 = (pre ++ ['_']).length by simp]
      rw [show pre ++ '_' :: subSpaces (subColon (subDD rest))
          = (pre ++ ['_']) ++ subSpaces (subColon (subDD rest)) by simp]
      exact List.drop_left _ _
    rw [hdrop] at hc
    refine ⟨fun hcol => ?_, fun hsp => ?_⟩
    · exact subSpaces_keeps_no_colon _ (subColon_no_colon _) (hcol ▸ hc)
    · exact subSpaces_no_space _ (hsp ▸ hc)

/-- Claim C6 counterexample: on `p_a::b  c:` the sanitizer yields
`p_a-b--c-`, which still contains consecutive hyphens and a trailing
hyphen — the claim's "consecutive separators collapsed to one, and
leading/trailing separators trimmed" is false of the code. -/
theorem sanitize_not_collapsed_cex :
    sanitize_branch_name ("p_a::b  c:".toList) = "p_a-b--c-".toList
    ∧ hasAdjacentHyphens (sanitize_branch_name ("p_a::b  c:".toList)) = true
    ∧ (sanitize_branch_name ("p_a::b  c:".toList)).getLast? = some '-' := by
  refine ⟨by decide, by decide, by decide⟩

/-- Witness for `sanitize_removes_invalid_chars` at the repository's
configured branch name and a test identifier containing `::` and a space. -/
theorem sanitize_removes_invalid_chars_witness :
    ("dev-agent/fix".toList ++ ['_']).isPrefixOf
      (sanitize_branch_name ("dev-agent/fix".toList ++ '_' :: "x.py::t a".toList)) = true
    ∧ ∀ c ∈ (sanitize_branch_name
        ("dev-agent/fix".toList ++ '_' :: "x.py::t a".toList)).drop
          ("dev-agent/fix".toList.length + 1),
        c ≠ ':' ∧ c ≠ ' ' :=
  sanitize_removes_invalid_chars ("dev-agent/fix".toList) ("x.py::t a".toList) (by decide)

end DevAgent

namespace DevAgent

theorem execAttempts_log_subtask (env : SupEnv) (mr i : Nat) :
    ∀ aLeft attempt, ∀ p ∈ (execAttempts env mr i aLeft attempt).2, p.1 = i := by
  intro aLeft
  induction aLeft with
  | zero => intro attempt p hp; simp [execAttempts] at hp
  | succ n ih =>
    intro attempt p hp
    simp only [execAttempts] at hp
    split at hp
    · simp at hp; rw [hp]
    · split at hp
      · rcases List.mem_cons.mp hp with h | h
        · rw [h]
        · exact ih (attempt + 1) p h
      · simp at hp; rw [hp]

theorem execAttempts_fails (env : SupEnv) (mr i : Nat)
    (hfail : ∀ a, a ≤ mr → subtaskAttemptOk (env.invoke i a) = false) :
    ∀ aLeft attempt, attempt + aLeft = mr + 1 →
      (execAttempts env mr i aLeft attempt).1 = false := by
  intro aLeft
  induction aLeft with
  | zero => intro attempt _; simp [execAttempts]
  | succ n ih =>
    intro attempt hinv
    have hle : attempt ≤ mr := by omega
    simp only [execAttempts, hfail attempt hle, Bool.false_eq_true, if_false]
    split
    · exact ih (attempt + 1) (by omega)
    · rfl

theorem supLoop_failfast (env : SupEnv) (mr k : Nat)
    (hfail : ∀ a, a ≤ mr → subtaskAttemptOk (env.invoke k a) = false) :
    ∀ remS i log, i ≤ k → k < i + remS →
      (supLoop env mr remS i log).1 = 1
      ∧ ∀ p ∈ (supLoop env mr remS i log).2, p ∈ log ∨ p.1 ≤ k := by
  intro remS
  induction remS with
  | zero => intro i log hik hki; omega
  | succ n ih =>
    intro i log hik hki
    by_cases hik2 : i = k
    · subst hik2
      have hf : (execSubtask env mr i).1 = false :=
        execAttempts_fails env mr i hfail (mr + 1) 0 (by omega)
      simp only [supLoop, hf, Bool.false_eq_true, if_false]
      refine ⟨by trivial, fun p hp => ?_⟩
      rcases List.mem_append.mp hp with h | h
      · exact Or.inl h
      · exact Or.inr (le_of_eq (execAttempts_log_subtask env mr i (mr + 1) 0 p h))
    · have hik3 : i < k := lt_of_le_of_ne hik hik2
      simp only [supLoop]
      split
      · have hres := ih (i + 1) (log ++ (execSubtask env mr i).2) (by omega) (by omega)
        refine ⟨hres.1, fun p hp => ?_⟩
        rcases hres.2 p hp with h | h
        · rcases List.mem_append.mp h with h2 | h2
          · exact Or.inl h2
          · exact Or.inr (by
              have := execAttempts_log_subtask env mr i (mr + 1) 0 p h2
              omega)
        · exact Or.inr h
      · refine ⟨by trivial, fun p hp => ?_⟩
        rcases List.mem_append.mp hp with h | h
        · exact Or.inl h
        · exact Or.inr (by
            have := execAttempts_log_subtask env mr i (mr + 1) 0 p h
            omega)

/-- Claim C7 (confirmed): when subtask `k` fails all of its
`max_retries + 1` attempts (no attempt exits 0 or carries a
treated-as-success stderr marker), `Supervisor.run` returns the failure
exit code 1 and never invokes any subtask with index greater than `k`. -/
theorem failfast_no_later_subtasks (env : SupEnv) (n mr k : Nat) (hk : k < n)
    (hfail : ∀ a, a ≤ mr → subtaskAttemptOk (env.invoke k a) = false) :
    (supervisorRun env n mr).1 = 1
    ∧ ∀ p ∈ (supervisorRun env n mr).2, p.1 ≤ k := by
  have h := supLoop_failfast env mr k hfail n 0 [] (Nat.zero_le k) (by omega)
  refine ⟨h.1, fun p hp => ?_⟩
  rcases h.2 p hp with h2 | h2
  · simp at h2
  · exact h2

/-- Witness for `failfast_no_later_subtasks`: three subtasks with default
retries, subtask index 1 always failing — the run exits 1 and subtask
index 2 is never invoked. -/
theorem failfast_no_later_subtasks_witness :
    (supervisorRun envSupW 3 2).1 = 1
    ∧ ∀ p ∈ (supervisorRun envSupW 3 2).2, p.1 ≤ 1 :=
  failfast_no_later_subtasks envSupW 3 2 1 (by decide) (fun _a _ha => rfl)

theorem isSubstr_append_self (a b : List Char) : isSubstr a (a ++ b) = true := by
  cases a with
  | nil =>
    cases b with
    | nil => rfl
    | cons c t => simp [isSubstr]
  | cons c as =>
    rw [List.cons_append]
    simp only [isSubstr, Bool.or_eq_true]
    exact Or.inl (by
      have h := isPrefixOf_append_self (c :: as) b
      rw [List.cons_append] at h
      exact h)

/-- Claim C8 (confirmed): when the failing test's source file cannot be read
(missing or undecodable), `generate_patch` makes exactly one backend call,
performs no AST validation (the retry sub-loop is skipped), and returns that
first diff unchecked — failing only if that single backend call itself
fails. -/
theorem unreadable_source_single_call (env : GenEnv) (pathStr msg : List Char)
    (h : env.sourceRead = .error msg) :
    (generate_patch env pathStr).llmCalls = 1
    ∧ (generate_patch env pathStr).astChecks = 0
    ∧ (generate_patch env pathStr).res =
        (match env.llm 0 with
         | .ok d => .ok ⟨d⟩
         | .error fe => .error (("Failed to generate patch: ".toList) ++ fe)) := by
  have hmsg : isSubstr ("Cannot read source file".toList)
      (("Cannot read source file ".toList) ++ pathStr ++ (": ".toList) ++ msg) = true := by
    have hsplit : (("Cannot read source file ".toList) ++ pathStr ++ (": ".toList) ++ msg)
        = ("Cannot read source file".toList)
          ++ (' ' :: (pathStr ++ (": ".toList) ++ msg)) := by
      rw [show ("Cannot read source file ".toList : List Char)
          = ("Cannot read source file".toList) ++ [' '] from by decide]
      simp
    rw [hsplit]
    exact isSubstr_append_self _ _
  unfold generate_patch generate_patch_with_retry
  rw [h]
  simp only [hmsg, if_true]
  cases hl : env.llm 0 with
  | ok d => exact ⟨rfl, rfl, rfl⟩
  | error fe => exact ⟨rfl, rfl, rfl⟩

/-- Witness for `unreadable_source_single_call` at a concrete environment
whose source read fails and whose backend returns a diff. -/
theorem unreadable_source_single_call_witness :
    (generate_patch genEnvW ("repo/missing.py".toList)).llmCalls = 1
    ∧ (generate_patch genEnvW ("repo/missing.py".toList)).astChecks = 0
    ∧ (generate_patch genEnvW ("repo/missing.py".toList)).res =
        (match genEnvW.llm 0 with
         | .ok d => .ok ⟨d⟩
         | .error fe => .error (("Failed to generate patch: ".toList) ++ fe)) :=
  unreadable_source_single_call genEnvW ("repo/missing.py".toList)
    ("No such file or directory".toList) rfl

end DevAgent

namespace DevAgent

/-- Claim C2 counterexample: when the test subprocess raises (timeout or
command not found), `run_tests` returns a non-passing `TestResult` whose
failures list is EMPTY — the claim's "this holds for every branch of
run_tests, including the timeout and command-not-found branch" is false. -/
theorem timeout_empty_failures_cex :
    (run_tests ⟨none, .raised ("Command timed out after 30 seconds".toList)⟩
        ("pytest --maxfail=1".toList)).passed = false
    ∧ (run_tests ⟨none, .raised ("Command timed out after 30 seconds".toList)⟩
        ("pytest --maxfail=1".toList)).failures = [] :=
  ⟨rfl, rfl⟩

/-- Claim C2 (corrected): on every branch of `run_tests` in which the test
subprocess actually completes, a non-passing result carries a non-empty
failures list; and when additionally neither the pre-check, nor the
discovery-error scan, nor the `FAILED`-marker scan finds anything, the list
is exactly the single synthetic `unknown` record carrying the full raw
output.  (The subprocess-exception branch returns an empty list, see
`timeout_empty_failures_cex`.) -/
theorem nonpassing_failures_nonempty (env : RunTestsEnv) (cmd : List Char)
    (hc : ∀ msg, env.exec ≠ .raised msg) :
    ((run_tests env cmd).passed = false → (run_tests env cmd).failures ≠ [])
    ∧ (∀ rc out err, env.precheck = none → env.exec = .completed rc out err →
        rc ≠ 0 → rc ≠ 5 →
        check_for_discovery_errors out err = none →
        scanFailures (out ++ err) = [] →
        (run_tests env cmd).failures
          = [⟨"unknown".toList, "unknown".toList, out ++ err⟩]) := by
  cases hpre : env.precheck with
  | some se =>
    constructor
    · intro _
      simp [run_tests, hpre]
    · intro rc out err hpre2 _ _ _ _ _
      exact absurd hpre2 (by simp)
  | none =>
    cases hex : env.exec with
    | raised msg => exact absurd hex (hc msg)
    | completed rc out err =>
      constructor
      · intro hpass
        by_cases h0 : rc = 0
        · simp [run_tests, hpre, hex, h0] at hpass
        · by_cases h5 : rc = 5
          · simp [run_tests, hpre, hex, h0, h5] at hpass
          · cases hd : check_for_discovery_errors out err with
            | some d => simp [run_tests, hpre, hex, h0, h5, hd]
            | none =>
              simp only [run_tests, hpre, hex, h0, h5, hd, if_false]
              unfold parse_pytest_failures
              cases hs : (scanFailures (out ++ err)).isEmpty
              · simp [hs]
                intro habs
                rw [habs] at hs
                simp at hs
              · simp [hs]
      · intro rc2 out2 err2 _ hex2 h0 h5 hd hscan
        injection hex2 with e1 e2 e3
        subst e1; subst e2; subst e3
        simp only [run_tests, hpre, hex, h0, h5, hd, if_false]
        unfold parse_pytest_failures
        rw [hscan]
        rfl

/-- Witness for `nonpassing_failures_nonempty`: a completed run with exit
code 2 and no recognizable markers yields the single synthetic `unknown`
failure, and in particular a non-empty list. -/
theorem nonpassing_failures_nonempty_witness :
    ((run_tests envUnknownW ("pytest".toList)).passed = false →
      (run_tests envUnknownW ("pytest".toList)).failures ≠ [])
    ∧ (run_tests envUnknownW ("pytest".toList)).failures
        = [⟨"unknown".toList, "unknown".toList, ("everything exploded".toList) ++ []⟩] := by
  have h := nonpassing_failures_nonempty envUnknownW ("pytest".toList)
    (fun msg hmsg => by exact ExecOutcome.noConfusion hmsg)
  exact ⟨h.1, h.2 2 ("everything exploded".toList) [] rfl rfl (by decide) (by decide)
    (by decide) (by decide)⟩

/-- Claim C4 (confirmed): a completed, non-passing run (exit code neither 0
nor 5, pre-check silent) whose output matches a discovery-error pattern
classifies as the discovery outcome — a single failure carrying the
offending file and the normalized message — even when the output also
contains `FAILED <file>::<test>` markers; the per-test parse is never
reached. -/
theorem discovery_beats_failed_markers (env : RunTestsEnv) (cmd : List Char)
    (rc : Int) (out err : List Char) (d : DiscoveryErrorInfo)
    (hpre : env.precheck = none) (hex : env.exec = .completed rc out err)
    (h0 : rc ≠ 0) (h5 : rc ≠ 5)
    (hd : check_for_discovery_errors out err = some d)
    (hmark : scanFailures (out ++ err) ≠ []) :
    run_tests env cmd
      = { passed := false
          failures := [⟨d.error, d.file_path, d.error⟩]
          raw_output := out ++ err } := by
  simp [run_tests, hpre, hex, h0, h5, hd]

/-- Witness for `discovery_beats_failed_markers`: output containing both
`tests/x.py:3: SyntaxError: bad` and `FAILED tests/y.py::test_a` with exit
code 1 classifies as the discovery outcome. -/
theorem discovery_beats_failed_markers_witness :
    run_tests envDiscW ("pytest".toList)
      = { passed := false
          failures := [⟨("SyntaxError: bad (line 3)".toList),
            ("tests/x.py".toList), ("SyntaxError: bad (line 3)".toList)⟩]
          raw_output :=
            ("tests/x.py:3: SyntaxError: bad\nFAILED tests/y.py::test_a - boom\n".toList)
              ++ [] } :=
  discovery_beats_failed_markers envDiscW ("pytest".toList) 1
    ("tests/x.py:3: SyntaxError: bad\nFAILED tests/y.py::test_a - boom\n".toList) []
    ⟨("tests/x.py".toList), ("SyntaxError: bad (line 3)".toList)⟩
    rfl rfl (by decide) (by decide) (by decide) (by decide)

end DevAgent

namespace DevAgent

theorem mainLoop_never_resolving (env : MainEnv) (cfg : Config) (be mo : List Char)
    (hTests : ∀ t, (env.testResult t).passed = false
      ∧ (env.testResult t).failures ≠ []
      ∧ isDiscoveryShape (env.testResult t) = false)
    (hGen : ∀ k, ∃ d, env.generate k = .ok d)
    (hBranch : ∀ k, env.createBranch k = true)
    (hVal : ∀ k, env.validate k = true)
    (hApp : ∀ k, env.applyPatch k = true) :
    ∀ rem it tc tec g curF ms brs,
      (mainLoop env cfg be mo rem it tc tec g curF ms brs).term = .exhausted
      ∧ (mainLoop env cfg be mo rem it tc tec g curF ms brs).code = 1
      ∧ (mainLoop env cfg be mo rem it tc tec g curF ms brs).gens = g + rem := by
  intro rem
  induction rem with
  | zero => intro it tc tec g curF ms brs; exact ⟨rfl, rfl, rfl⟩
  | succ n ih =>
    intro it tc tec g curF ms brs
    obtain ⟨hp, hf, hds⟩ := hTests tec
    cases hff : (env.testResult tec).failures with
    | nil => exact absurd hff hf
    | cons f fs =>
      have hcl : classifyMain (env.testResult tec) = .fix f := by
        simp [classifyMain, hds, hp, hff]
      have hp2 : (env.testResult (tec + 1)).passed = false := (hTests (tec + 1)).1
      obtain ⟨d, hd⟩ := hGen it
      simp only [mainLoop, hcl, hd, hBranch it, hVal it, hApp it, hp2, Bool.not_true,
        Bool.false_eq_true, if_false]
      refine ⟨(ih _ _ _ _ _ _ _).1, (ih _ _ _ _ _ _ _).2.1, ?_⟩
      rw [(ih _ _ _ _ _ _ _).2.2]
      omega

end DevAgent

namespace DevAgent

/-- Claim C1 (confirmed): with `max_iterations = N`, when every test
execution is non-passing, non-empty and not discovery-shaped, and every
generated patch is produced, branched, validated and applied successfully
while the re-runs keep failing, `main` makes exactly `N` patch-generation
calls and exits as exhausted with code 1 — never 0. -/
theorem budget_exhausted_exactly_N (env : MainEnv) (cfg : Config)
    (hTests : ∀ t, (env.testResult t).passed = false
      ∧ (env.testResult t).failures ≠ []
      ∧ isDiscoveryShape (env.testResult t) = false)
    (hGen : ∀ k, ∃ d, env.generate k = .ok d)
    (hBranch : ∀ k, env.createBranch k = true)
    (hVal : ∀ k, env.validate k = true)
    (hApp : ∀ k, env.applyPatch k = true) :
    (mainRun env cfg).term = .exhausted
    ∧ (mainRun env cfg).code = 1
    ∧ (mainRun env cfg).gens = cfg.max_iterations := by
  have h := mainLoop_never_resolving env cfg
    (parse_model_path cfg.model_path).1 (parse_model_path cfg.model_path).2
    hTests hGen hBranch hVal hApp cfg.max_iterations 0 1 0 0 none [] []
  unfold mainRun
  exact ⟨h.1, h.2.1, by rw [h.2.2]; omega⟩

/-- Witness for `budget_exhausted_exactly_N` with `N = 2` at a concrete
never-resolving environment: exactly 2 generation attempts, exit code 1. -/
theorem budget_exhausted_exactly_N_witness :
    (mainRun envBudgetW { defaultConfig with max_iterations := 2 }).term = .exhausted
    ∧ (mainRun envBudgetW { defaultConfig with max_iterations := 2 }).code = 1
    ∧ (mainRun envBudgetW { defaultConfig with max_iterations := 2 }).gens = 2 :=
  budget_exhausted_exactly_N envBudgetW { defaultConfig with max_iterations := 2 }
    (fun _t => ⟨rfl, by simp [envBudgetW], rfl⟩)
    (fun _k => ⟨⟨"diff".toList⟩, rfl⟩)
    (fun _k => rfl) (fun _k => rfl) (fun _k => rfl)

end DevAgent

namespace DevAgent

theorem mainLoop_code (env : MainEnv) (cfg : Config) (be mo : List Char) :
    ∀ rem it tc tec g curF ms brs,
      (mainLoop env cfg be mo rem it tc tec g curF ms brs).code
        = (match (mainLoop env cfg be mo rem it tc tec g curF ms brs).term with
           | .passedImmediate => 0
           | .convergedRetest => 0
           | .branchFailed => 2
           | .validationFailed => 2
           | .applicationFailed => 2
           | _ => 1) := by
  intro rem
  induction rem with
  | zero => intro it tc tec g curF ms brs; rfl
  | succ n ih =>
    intro it tc tec g curF ms brs
    simp only [mainLoop]
    cases hcl : classifyMain (env.testResult tec) with
    | pass => rfl
    | anomaly => rfl
    | fix f =>
      cases hg : env.generate it with
      | error e => rfl
      | ok p =>
        cases hbr : env.createBranch it with
        | false => simp [hbr]
        | true =>
          cases hv : env.validate it with
          | false => simp [hbr, hv]
          | true =>
            cases ha : env.applyPatch it with
            | false => simp [hbr, hv, ha]
            | true =>
              cases hrt : (env.testResult (tec + 1)).passed with
              | true => simp [hbr, hv, ha, hrt]
              | false =>
                simp only [hbr, hv, ha, hrt, Bool.not_true, Bool.false_eq_true, if_false]
                exact ih _ _ _ _ _ _ _

/-- Claim C5 (corrected): the process exit code of `main` is 0 exactly on
the two converged terminations, 2 exactly on branch-creation, validation or
application failure, and 1 exactly on budget exhaustion or on the two
uncaught exceptions (empty failure list, generation failure); the
configuration-error exit 1 exists in the code but is unreachable.  The
original claim omitted branch-creation failure from the exit-2 set — see
`branch_failure_exit2_cex`. -/
theorem exit_code_partition (env : MainEnv) (cfg : Config) :
    ((mainRun env cfg).code = 0 ↔
      (mainRun env cfg).term = .passedImmediate
        ∨ (mainRun env cfg).term = .convergedRetest)
    ∧ ((mainRun env cfg).code = 2 ↔
      (mainRun env cfg).term = .branchFailed
        ∨ (mainRun env cfg).term = .validationFailed
        ∨ (mainRun env cfg).term = .applicationFailed)
    ∧ ((mainRun env cfg).code = 1 ↔
      (mainRun env cfg).term = .exhausted
        ∨ (mainRun env cfg).term = .noFailuresCrash
        ∨ (mainRun env cfg).term = .generationCrash) := by
  have h := mainLoop_code env cfg
    (parse_model_path cfg.model_path).1 (parse_model_path cfg.model_path).2
    cfg.max_iterations 0 1 0 0 none [] []
  unfold mainRun
  rw [h]
  cases (mainLoop env cfg
      (parse_model_path cfg.model_path).1 (parse_model_path cfg.model_path).2
      cfg.max_iterations 0 1 0 0 none [] []).term <;> simp

/-- Claim C5 counterexample: with branch creation failing, `main` exits with
code 2 although neither patch validation nor patch application failed. -/
theorem branch_failure_exit2_cex :
    (mainRun envBranchFailW defaultConfig).code = 2
    ∧ (mainRun envBranchFailW defaultConfig).term = .branchFailed
    ∧ Term.branchFailed ≠ Term.validationFailed
    ∧ Term.branchFailed ≠ Term.applicationFailed :=
  ⟨rfl, rfl, by decide, by decide⟩

end DevAgent

namespace DevAgent

theorem mainLoop_metrics (env : MainEnv) (cfg : Config) (be mo : List Char) :
    ∀ rem it tc tec g curF ms brs,
      ((mainLoop env cfg be mo rem it tc tec g curF ms brs).term = .exhausted →
        ∃ nm, (mainLoop env cfg be mo rem it tc tec g curF ms brs).metrics
          = ms ++ [⟨nm, be, mo, cfg.max_iterations, false,
              env.timeMs ((mainLoop env cfg be mo rem it tc tec g curF ms brs).timeCalls - 1)
                - env.timeMs 0⟩])
      ∧ ((mainLoop env cfg be mo rem it tc tec g curF ms brs).term = .convergedRetest →
        ∃ nm, (mainLoop env cfg be mo rem it tc tec g curF ms brs).metrics
          = ms ++ [⟨nm, be, mo,
              (mainLoop env cfg be mo rem it tc tec g curF ms brs).itersDone, true,
              env.timeMs ((mainLoop env cfg be mo rem it tc tec g curF ms brs).timeCalls - 1)
                - env.timeMs
                  ((mainLoop env cfg be mo rem it tc tec g curF ms brs).timeCalls - 2)⟩])
      ∧ ((mainLoop env cfg be mo rem it tc tec g curF ms brs).term = .passedImmediate →
        (mainLoop env cfg be mo rem it tc tec g curF ms brs).metrics = ms) := by
  intro rem
  induction rem with
  | zero =>
    intro it tc tec g curF ms brs
    refine ⟨fun _ => ?_, fun h => by exact absurd h (by simp [mainLoop]),
      fun h => by exact absurd h (by simp [mainLoop])⟩
    cases curF with
    | some f => exact ⟨f.test_name, by simp [mainLoop]⟩
    | none => exact ⟨"unknown_failure".toList, by simp [mainLoop]⟩
  | succ n ih =>
    intro it tc tec g curF ms brs
    simp only [mainLoop]
    cases hcl : classifyMain (env.testResult tec) with
    | pass =>
      exact ⟨fun h => absurd h (by simp), fun h => absurd h (by simp), fun _ => rfl⟩
    | anomaly =>
      exact ⟨fun h => absurd h (by simp), fun h => absurd h (by simp),
        fun h => absurd h (by simp)⟩
    | fix f =>
      cases hg : env.generate it with
      | error e =>
        exact ⟨fun h => absurd h (by simp), fun h => absurd h (by simp),
          fun h => absurd h (by simp)⟩
      | ok p =>
        cases hbr : env.createBranch it with
        | false =>
          simp only [Bool.not_false, if_true]
          exact ⟨fun h => absurd h (by simp), fun h => absurd h (by simp),
            fun h => absurd h (by simp)⟩
        | true =>
          cases hv : env.validate it with
          | false =>
            simp only [Bool.not_true, Bool.not_false, Bool.false_eq_true, if_false, if_true]
            exact ⟨fun h => absurd h (by simp), fun h => absurd h (by simp),
              fun h => absurd h (by simp)⟩
          | true =>
            cases ha : env.applyPatch it with
            | false =>
              simp only [Bool.not_true, Bool.not_false, Bool.false_eq_true, if_false, if_true]
              exact ⟨fun h => absurd h (by simp), fun h => absurd h (by simp),
                fun h => absurd h (by simp)⟩
            | true =>
              cases hrt : (env.testResult (tec + 1)).passed with
              | true =>
                simp only [Bool.not_true, Bool.false_eq_true, if_false, if_true]
                refine ⟨fun h => absurd h (by simp), fun _ => ?_, fun h => absurd h (by simp)⟩
                refine ⟨f.test_name, ?_⟩
                simp
              | false =>
                simp only [Bool.not_true, Bool.false_eq_true, if_false]
                exact ih _ _ _ _ _ _ _

/-- Claim C9 (corrected): on `EXHAUSTED` exactly one metrics record is
appended, with `success = false`, `iterations = max_iterations`, and
`duration_ms` the wall-clock time of the whole call (last clock reading
minus the start reading).  On `CONVERGED` via a successful retest exactly
one record is appended, with `success = true`, `iterations` the iterations
used — but `duration_ms` is the wall-clock time of the FINAL iteration only
(the last two clock readings), not of the whole call.  A call that
converges because a fresh test run passes appends NO record.  The original
claim (one record on every converged/exhausted termination, duration always
the whole call) is refuted by `converged_duration_cex`. -/
theorem metrics_on_termination (env : MainEnv) (cfg : Config) :
    ((mainRun env cfg).term = .exhausted →
      ∃ nm, (mainRun env cfg).metrics
        = [⟨nm, (parse_model_path cfg.model_path).1, (parse_model_path cfg.model_path).2,
            cfg.max_iterations, false,
            env.timeMs ((mainRun env cfg).timeCalls - 1) - env.timeMs 0⟩])
    ∧ ((mainRun env cfg).term = .convergedRetest →
      ∃ nm, (mainRun env cfg).metrics
        = [⟨nm, (parse_model_path cfg.model_path).1, (parse_model_path cfg.model_path).2,
            (mainRun env cfg).itersDone, true,
            env.timeMs ((mainRun env cfg).timeCalls - 1)
              - env.timeMs ((mainRun env cfg).timeCalls - 2)⟩])
    ∧ ((mainRun env cfg).term = .passedImmediate → (mainRun env cfg).metrics = []) := by
  have h := mainLoop_metrics env cfg
    (parse_model_path cfg.model_path).1 (parse_model_path cfg.model_path).2
    cfg.max_iterations 0 1 0 0 none [] []
  unfold mainRun
  exact h

/-- Claim C9 counterexample: a run converging after one patched iteration
records `duration_ms = 50` (the final iteration: readings 100 to 150) while
the whole call spans 150 ms (readings 0 to 150); and a run whose first test
execution passes terminates `CONVERGED` with NO metrics record at all. -/
theorem converged_duration_cex :
    (mainRun envClockW defaultConfig).term = .convergedRetest
    ∧ (mainRun envClockW defaultConfig).metrics
        = [⟨"test_a".toList, "llama-cpp".toList, "codellama".toList, 1, true, 50⟩]
    ∧ envClockW.timeMs ((mainRun envClockW defaultConfig).timeCalls - 1)
        - envClockW.timeMs 0 = 150
    ∧ (50 : Int) ≠ 150
    ∧ (mainRun envPassW defaultConfig).term = .passedImmediate
    ∧ (mainRun envPassW defaultConfig).metrics = [] := by
  refine ⟨rfl, by decide, by decide, by decide, rfl, rfl⟩

/-- Witness for `metrics_on_termination`: the converged-retest implication
applied at the concrete converging environment. -/
theorem metrics_on_termination_witness :
    ∃ nm, (mainRun envClockW defaultConfig).metrics
      = [⟨nm, (parse_model_path defaultConfig.model_path).1,
          (parse_model_path defaultConfig.model_path).2,
          (mainRun envClockW defaultConfig).itersDone, true,
          envClockW.timeMs ((mainRun envClockW defaultConfig).timeCalls - 1)
            - envClockW.timeMs ((mainRun envClockW defaultConfig).timeCalls - 2)⟩] :=
  (metrics_on_termination envClockW defaultConfig).2.1 rfl

end DevAgent

namespace DevAgent

theorem pySplitlinesGo_cons_noBreak (c : Char) (t acc : List Char)
    (hc : isPyBreak c = false) :
    pySplitlinesGo (c :: t) acc = pySplitlinesGo t (c :: acc) := by
  have hr : c ≠ '\x0d' := by intro e; rw [e] at hc; exact absurd hc (by decide)
  rw [pySplitlinesGo.eq_def]
  split
  · simp_all
  · rename_i h; exfalso; injection h with h1 h2; exact hr h1
  · rename_i h1 h2; injection h2 with h3 h4; subst h3; subst h4; simp [hc]

theorem pySplitlinesGo_cons_nl (t acc : List Char) :
    pySplitlinesGo ('\n' :: t) acc = acc.reverse :: pySplitlinesGo t [] := by
  rw [pySplitlinesGo.eq_def]
  split
  · simp_all
  · rename_i h; exfalso; injection h with h1 h2; exact absurd h1 (by decide)
  · rename_i h1 h2; injection h2 with h3 h4; subst h3; subst h4; simp [isPyBreak]

theorem pySplitlinesGo_chunk (l : List Char) (hl : ∀ c ∈ l, isPyBreak c = false) :
    ∀ rest acc, pySplitlinesGo (l ++ rest) acc = pySplitlinesGo rest (l.reverse ++ acc) := by
  induction l with
  | nil => intro rest acc; simp
  | cons c t ih =>
    intro rest acc
    have hc := hl c (List.mem_cons_self c t)
    have ht : ∀ x ∈ t, isPyBreak x = false := fun x hx => hl x (List.mem_cons_of_mem _ hx)
    rw [List.cons_append, pySplitlinesGo_cons_noBreak c _ _ hc, ih ht rest (c :: acc)]
    simp

theorem pySplitlines_joinNl :
    ∀ ls : List (List Char),
      (∀ l ∈ ls, l ≠ [] ∧ ∀ c ∈ l, isPyBreak c = false) →
      pySplitlines (joinNl ls) = ls := by
  intro ls
  induction ls with
  | nil => intro _; rfl
  | cons l ls ih =>
    intro h
    obtain ⟨hl, hlb⟩ := h l (List.mem_cons_self l ls)
    cases ls with
    | nil =>
      show pySplitlines (joinNl [l]) = [l]
      unfold pySplitlines
      rw [show joinNl [l] = l ++ [] by simp [joinNl]]
      rw [pySplitlinesGo_chunk l hlb [] []]
      rw [pySplitlinesGo.eq_def]
      simp [List.isEmpty_iff, hl]
    | cons l2 ls2 =>
      show pySplitlines (l ++ '\n' :: joinNl (l2 :: ls2)) = l :: l2 :: ls2
      unfold pySplitlines
      rw [pySplitlinesGo_chunk l hlb ('\n' :: joinNl (l2 :: ls2)) []]
      rw [pySplitlinesGo_cons_nl]
      simp only [List.append_nil, List.reverse_reverse]
      have := ih (fun x hx => h x (List.mem_cons_of_mem _ hx))
      unfold pySplitlines at this
      rw [this]

theorem pySplitlinesKeepGo_cons_noBreak (c : Char) (t acc : List Char)
    (hc : isPyBreak c = false) :
    pySplitlinesKeepGo (c :: t) acc = pySplitlinesKeepGo t (c :: acc) := by
  have hr : c ≠ '\x0d' := by intro e; rw [e] at hc; exact absurd hc (by decide)
  rw [pySplitlinesKeepGo.eq_def]
  split
  · simp_all
  · rename_i h; exfalso; injection h with h1 h2; exact hr h1
  · rename_i h1 h2; injection h2 with h3 h4; subst h3; subst h4; simp [hc]

theorem pySplitlinesKeepGo_cons_nl (t acc : List Char) :
    pySplitlinesKeepGo ('\n' :: t) acc
      = (acc.reverse ++ ['\n']) :: pySplitlinesKeepGo t [] := by
  rw [pySplitlinesKeepGo.eq_def]
  split
  · simp_all
  · rename_i h; exfalso; injection h with h1 h2; exact absurd h1 (by decide)
  · rename_i h1 h2; injection h2 with h3 h4; subst h3; subst h4; simp [isPyBreak]

theorem pySplitlinesKeepGo_chunk (l : List Char) (hl : ∀ c ∈ l, isPyBreak c = false) :
    ∀ rest acc,
      pySplitlinesKeepGo (l ++ rest) acc = pySplitlinesKeepGo rest (l.reverse ++ acc) := by
  induction l with
  | nil => intro rest acc; simp
  | cons c t ih =>
    intro rest acc
    have hc := hl c (List.mem_cons_self c t)
    have ht : ∀ x ∈ t, isPyBreak x = false := fun x hx => hl x (List.mem_cons_of_mem _ hx)
    rw [List.cons_append, pySplitlinesKeepGo_cons_noBreak c _ _ hc, ih ht rest (c :: acc)]
    simp

theorem pySplitlinesKeep_mkText :
    ∀ ls : List (List Char),
      (∀ l ∈ ls, ∀ c ∈ l, isPyBreak c = false) →
      pySplitlinesKeep (mkText ls) = ls.map wNl := by
  intro ls
  induction ls with
  | nil => intro _; rfl
  | cons l ls ih =>
    intro h
    have hlb := h l (List.mem_cons_self l ls)
    show pySplitlinesKeep (mkText (l :: ls)) = wNl l :: ls.map wNl
    unfold pySplitlinesKeep
    rw [show mkText (l :: ls) = l ++ '\n' :: mkText ls by simp [mkText, wNl]]
    rw [pySplitlinesKeepGo_chunk l hlb ('\n' :: mkText ls) []]
    rw [pySplitlinesKeepGo_cons_nl]
    simp only [List.append_nil, List.reverse_reverse]
    have := ih (fun x hx => h x (List.mem_cons_of_mem _ hx))
    unfold pySplitlinesKeep at this
    rw [this]
    rfl

theorem drop_succ_eq_tail_drop {α : Type} (l : List α) :
    ∀ n, l.drop (n + 1) = (l.drop n).tail := by
  induction l with
  | nil => intro n; simp
  | cons a t ih =>
    intro n
    cases n with
    | zero => rfl
    | succ m => rw [List.drop_succ_cons, List.drop_succ_cons, ih m]

theorem get?_eq_head?_drop {α : Type} (l : List α) :
    ∀ n, l.get? n = (l.drop n).head? := by
  induction l with
  | nil => intro n; simp
  | cons a t ih =>
    intro n
    cases n with
    | zero => rfl
    | succ m => rw [List.drop_succ_cons, List.get?_cons_succ, ih m]

theorem applyDiffLoop_eq_bodyS :
    ∀ (body lines : List (List Char)) (idx : Nat),
      applyDiffLoop body lines idx = applyBodyS body (lines.drop idx) := by
  intro body
  induction body with
  | nil => intro lines idx; rfl
  | cons dl b ih =>
    intro lines idx
    have hget := get?_eq_head?_drop lines idx
    have hdrop := drop_succ_eq_tail_drop lines idx
    simp only [applyDiffLoop, applyBodyS]
    rcases hd : lines.drop idx with _ | ⟨o, r⟩
    · rw [hd] at hget hdrop
      simp only [List.head?_nil] at hget
      simp only [List.tail_nil] at hdrop
      split
      · rw [hget, ih, ih, hd]
      · split
        · rw [ih, hdrop]; simp
        · split
          · rw [ih, hd]
          · rw [ih, hd]
    · rw [hd] at hget hdrop
      simp only [List.head?_cons] at hget
      simp only [List.tail_cons] at hdrop
      split
      · rw [hget, ih, hdrop]
      · split
        · rw [ih, hdrop]; simp
        · split
          · rw [ih, hd]
          · rw [ih, hd]

theorem applyBodyS_hunkBody {body oldP newP : List (List Char)}
    (hb : HunkBody body oldP newP) :
    ∀ tail, applyBodyS body (oldP.map wNl ++ tail) = newP.map wNl ++ tail := by
  induction hb with
  | nil => intro tail; rfl
  | ctx l hb ih =>
    intro tail
    have h1 : [' '].isPrefixOf (' ' :: l) = true := by simp [List.isPrefixOf]
    simp only [List.map_cons, List.cons_append, applyBodyS, h1, if_true]
    rw [ih tail]
  | del l hb ih =>
    intro tail
    have h1 : [' '].isPrefixOf ('-' :: l) = false := by simp [List.isPrefixOf]
    have h2 : ['-'].isPrefixOf ('-' :: l) = true := by simp [List.isPrefixOf]
    simp only [List.map_cons, List.cons_append, applyBodyS, h1, h2, Bool.false_eq_true,
      if_false, if_true, List.tail_cons]
    exact ih tail
  | add l hb ih =>
    intro tail
    have h1 : [' '].isPrefixOf ('+' :: l) = false := by simp [List.isPrefixOf]
    have h2 : ['-'].isPrefixOf ('+' :: l) = false := by simp [List.isPrefixOf]
    have h3 : ['+'].isPrefixOf ('+' :: l) = true := by simp [List.isPrefixOf]
    simp only [applyBodyS, h1, h2, h3, Bool.false_eq_true, if_false, if_true,
      List.drop_one, List.tail_cons, List.map_cons]
    rw [ih tail]
    rfl

theorem hunkBody_lines {body oldP newP : List (List Char)}
    (hb : HunkBody body oldP newP)
    (hold : ∀ l ∈ oldP, ∀ c ∈ l, isPyBreak c = false)
    (hnew : ∀ l ∈ newP, ∀ c ∈ l, isPyBreak c = false) :
    ∀ bl ∈ body, bl ≠ [] ∧ ∀ c ∈ bl, isPyBreak c = false := by
  induction hb with
  | nil => intro bl hbl; simp at hbl
  | ctx l hb ih =>
    intro bl hbl
    rcases List.mem_cons.mp hbl with h | h
    · subst h
      refine ⟨by simp, fun c hc => ?_⟩
      rcases List.mem_cons.mp hc with h2 | h2
      · subst h2; rfl
      · exact hold l (List.mem_cons_self _ _) c h2
    · exact ih (fun x hx => hold x (List.mem_cons_of_mem _ hx))
        (fun x hx => hnew x (List.mem_cons_of_mem _ hx)) bl h
  | del l hb ih =>
    intro bl hbl
    rcases List.mem_cons.mp hbl with h | h
    · subst h
      refine ⟨by simp, fun c hc => ?_⟩
      rcases List.mem_cons.mp hc with h2 | h2
      · subst h2; rfl
      · exact hold l (List.mem_cons_self _ _) c h2
    · exact ih (fun x hx => hold x (List.mem_cons_of_mem _ hx)) hnew bl h
  | add l hb ih =>
    intro bl hbl
    rcases List.mem_cons.mp hbl with h | h
    · subst h
      refine ⟨by simp, fun c hc => ?_⟩
      rcases List.mem_cons.mp hc with h2 | h2
      · subst h2; rfl
      · exact hnew l (List.mem_cons_self _ _) c h2
    · exact ih hold (fun x hx => hnew x (List.mem_cons_of_mem _ hx)) bl h

end DevAgent

namespace DevAgent

theorem natToCharsAux_mem :
    ∀ (fuel n : Nat) (acc : List Char) (c : Char), c ∈ natToCharsAux fuel n acc →
      c ∈ acc ∨ ∃ d, d < 10 ∧ c = Nat.digitChar d := by
  intro fuel
  induction fuel with
  | zero => intro n acc c h; exact Or.inl h
  | succ f ih =>
    intro n acc c h
    simp only [natToCharsAux] at h
    split at h
    · rcases List.mem_cons.mp h with h2 | h2
      · exact Or.inr ⟨n, by omega, h2⟩
      · exact Or.inl h2
    · rcases ih (n / 10) (Nat.digitChar (n % 10) :: acc) c h with h2 | h2
      · rcases List.mem_cons.mp h2 with h3 | h3
        · exact Or.inr ⟨n % 10, by omega, h3⟩
        · exact Or.inl h3
      · exact Or.inr h2

theorem digitChar_good (d : Nat) (h : d < 10) :
    isPyWS (Nat.digitChar d) = false ∧ isPyBreak (Nat.digitChar d) = false
    ∧ Nat.digitChar d ≠ ',' ∧ isPyDigit (Nat.digitChar d) = true
    ∧ Nat.digitChar d ≠ '-' ∧ Nat.digitChar d ≠ '+' := by
  interval_cases d <;> exact ⟨rfl, rfl, by decide, rfl, by decide, by decide⟩

theorem natToChars_good (n : Nat) :
    ∀ c ∈ natToChars n,
      isPyWS c = false ∧ isPyBreak c = false ∧ c ≠ ','
      ∧ isPyDigit c = true ∧ c ≠ '-' ∧ c ≠ '+' := by
  intro c hc
  rcases natToCharsAux_mem (n + 1) n [] c hc with h | ⟨d, hd, rfl⟩
  · simp at h
  · exact digitChar_good d hd

theorem natToCharsAux_ne_nil :
    ∀ (fuel n : Nat) (acc : List Char), fuel ≠ 0 ∨ acc ≠ [] → natToCharsAux fuel n acc ≠ [] := by
  intro fuel
  induction fuel with
  | zero =>
    intro n acc h
    rcases h with h | h
    · exact absurd rfl h
    · exact h
  | succ f ih =>
    intro n acc _
    simp only [natToCharsAux]
    split
    · simp
    · exact ih (n / 10) _ (Or.inr (by simp))

theorem natToChars_ne_nil (n : Nat) : natToChars n ≠ [] :=
  natToCharsAux_ne_nil (n + 1) n [] (Or.inl (by omega))

theorem dropWhile_eq_self_of {α : Type} (p : α → Bool) (l : List α)
    (h : ∀ c ∈ l, p c = false) : l.dropWhile p = l := by
  cases l with
  | nil => rfl
  | cons a t => simp [List.dropWhile_cons, h a (List.mem_cons_self a t)]

theorem pyStrip_nonws (l : List Char) (h : ∀ c ∈ l, isPyWS c = false) :
    pyStrip l = l := by
  unfold pyStrip
  rw [dropWhile_eq_self_of _ l h]
  rw [dropWhile_eq_self_of _ l.reverse (fun c hc => h c (List.mem_reverse.mp hc))]
  exact List.reverse_reverse l

theorem pyInt_natToChars (n : Nat) : ∃ v, pyInt (natToChars n) = some v := by
  have hstrip : pyStrip (natToChars n) = natToChars n :=
    pyStrip_nonws _ (fun c hc => (natToChars_good n c hc).1)
  cases hne : natToChars n with
  | nil => exact absurd hne (natToChars_ne_nil n)
  | cons c ds =>
    have hc := natToChars_good n c (by rw [hne]; exact List.mem_cons_self c ds)
    have hall : (c :: ds).all isPyDigit = true := by
      rw [← hne]
      exact List.all_eq_true.mpr (fun x hx => (natToChars_good n x hx).2.2.2.1)
    refine ⟨(digitsVal (c :: ds) : Int), ?_⟩
    have hstrip2 : pyStrip (c :: ds) = c :: ds := by rw [← hne]; exact hstrip
    unfold pyInt
    rw [hstrip2]
    simp [hc.2.2.2.2.1, hc.2.2.2.2.2, hall]

theorem takeWhile_until {α : Type} (p : α → Bool) (xs : List α) (y : α) (ys : List α)
    (hx : ∀ x ∈ xs, p x = true) (hy : p y = false) :
    (xs ++ y :: ys).takeWhile p = xs := by
  induction xs with
  | nil => simp [List.takeWhile_cons, hy]
  | cons a t ih =>
    simp [List.cons_append, List.takeWhile_cons, hx a (List.mem_cons_self a t),
      ih (fun x hxm => hx x (List.mem_cons_of_mem _ hxm))]

theorem pySplitWSGo_cons_nonws (c : Char) (t acc : List Char) (hc : isPyWS c = false) :
    pySplitWSGo (c :: t) acc = pySplitWSGo t (c :: acc) := by
  simp [pySplitWSGo, hc]

theorem pySplitWSGo_chunk (tok : List Char) (ht : ∀ c ∈ tok, isPyWS c = false) :
    ∀ rest acc, pySplitWSGo (tok ++ rest) acc = pySplitWSGo rest (tok.reverse ++ acc) := by
  induction tok with
  | nil => intro rest acc; simp
  | cons c t ih =>
    intro rest acc
    rw [List.cons_append, pySplitWSGo_cons_nonws c _ _ (ht c (List.mem_cons_self c t))]
    rw [ih (fun x hx => ht x (List.mem_cons_of_mem _ hx)) rest (c :: acc)]
    simp

theorem pySplitWSGo_space (rest acc : List Char) (ha : acc ≠ []) :
    pySplitWSGo (' ' :: rest) acc = acc.reverse :: pySplitWSGo rest [] := by
  cases acc with
  | nil => exact absurd rfl ha
  | cons a t => simp [pySplitWSGo, isPyWS]

theorem pySplitWSGo_nil_acc (acc : List Char) (ha : acc ≠ []) :
    pySplitWSGo [] acc = [acc.reverse] := by
  cases acc with
  | nil => exact absurd rfl ha
  | cons a t => simp [pySplitWSGo]

theorem splitWS_token_space (tok rest : List Char) (hne : tok ≠ [])
    (ht : ∀ c ∈ tok, isPyWS c = false) :
    pySplitWSGo (tok ++ ' ' :: rest) [] = tok :: pySplitWSGo rest [] := by
  rw [pySplitWSGo_chunk tok ht (' ' :: rest) []]
  rw [pySplitWSGo_space rest (tok.reverse ++ []) (by simp [hne])]
  simp

theorem splitWS_final_token (tok : List Char) (hne : tok ≠ [])
    (ht : ∀ c ∈ tok, isPyWS c = false) :
    pySplitWSGo tok [] = [tok] := by
  conv_lhs => rw [← List.append_nil tok]
  rw [pySplitWSGo_chunk tok ht [] []]
  rw [pySplitWSGo_nil_acc (tok.reverse ++ []) (by simp [hne])]
  simp

theorem mkHunkHeader_chain (a b c d : Nat) :
    mkHunkHeader a b c d
      = (['@', '@'] : List Char)
        ++ ' ' :: (('-' :: (natToChars a ++ ',' :: natToChars b))
          ++ ' ' :: (('+' :: (natToChars c ++ ',' :: natToChars d))
            ++ ' ' :: ['@', '@'])) := by
  simp [mkHunkHeader]

theorem minusTok_nonws (a b : Nat) :
    ∀ ch ∈ ('-' :: (natToChars a ++ ',' :: natToChars b)), isPyWS ch = false := by
  refine List.forall_mem_cons.mpr ⟨rfl, ?_⟩
  refine List.forall_mem_append.mpr ⟨?_, ?_⟩
  · exact fun x hx => (natToChars_good a x hx).1
  · refine List.forall_mem_cons.mpr ⟨rfl, ?_⟩
    exact fun x hx => (natToChars_good b x hx).1

theorem plusTok_nonws (c d : Nat) :
    ∀ ch ∈ ('+' :: (natToChars c ++ ',' :: natToChars d)), isPyWS ch = false := by
  refine List.forall_mem_cons.mpr ⟨rfl, ?_⟩
  refine List.forall_mem_append.mpr ⟨?_, ?_⟩
  · exact fun x hx => (natToChars_good c x hx).1
  · refine List.forall_mem_cons.mpr ⟨rfl, ?_⟩
    exact fun x hx => (natToChars_good d x hx).1

theorem pySplitWS_hunkHeader (a b c d : Nat) :
    pySplitWS (mkHunkHeader a b c d)
      = [['@', '@'], '-' :: (natToChars a ++ ',' :: natToChars b),
         '+' :: (natToChars c ++ ',' :: natToChars d), ['@', '@']] := by
  unfold pySplitWS
  rw [mkHunkHeader_chain]
  rw [splitWS_token_space ['@', '@'] _ (by simp) (by decide)]
  rw [splitWS_token_space ('-' :: (natToChars a ++ ',' :: natToChars b)) _
    (by simp) (minusTok_nonws a b)]
  rw [splitWS_token_space ('+' :: (natToChars c ++ ',' :: natToChars d)) _
    (by simp) (plusTok_nonws c d)]
  rw [splitWS_final_token ['@', '@'] (by simp) (by decide)]

theorem mkHunkHeader_breakfree (a b c d : Nat) :
    ∀ ch ∈ mkHunkHeader a b c d, isPyBreak ch = false := by
  rw [mkHunkHeader_chain]
  refine List.forall_mem_append.mpr ⟨by decide, ?_⟩
  refine List.forall_mem_cons.mpr ⟨rfl, ?_⟩
  refine List.forall_mem_append.mpr ⟨?_, ?_⟩
  · refine List.forall_mem_cons.mpr ⟨rfl, ?_⟩
    refine List.forall_mem_append.mpr ⟨?_, ?_⟩
    · exact fun x hx => (natToChars_good a x hx).2.1
    · refine List.forall_mem_cons.mpr ⟨rfl, ?_⟩
      exact fun x hx => (natToChars_good b x hx).2.1
  · refine List.forall_mem_cons.mpr ⟨rfl, ?_⟩
    refine List.forall_mem_append.mpr ⟨?_, ?_⟩
    · refine List.forall_mem_cons.mpr ⟨rfl, ?_⟩
      refine List.forall_mem_append.mpr ⟨?_, ?_⟩
      · exact fun x hx => (natToChars_good c x hx).2.1
      · refine List.forall_mem_cons.mpr ⟨rfl, ?_⟩
        exact fun x hx => (natToChars_good d x hx).2.1
    · refine List.forall_mem_cons.mpr ⟨rfl, ?_⟩
      exact by decide

end DevAgent

namespace DevAgent

theorem apply_mkDiff_canon (orig : List Char) (a b c d : Nat) (body : List (List Char))
    (hbody : ∀ bl ∈ body, bl ≠ [] ∧ ∀ ch ∈ bl, isPyBreak ch = false) :
    apply_diff_to_source orig (mkDiffText (mkHunkHeader a b c d) body)
      = some ((applyDiffLoop body (pySplitlinesKeep orig) 0).flatten) := by
  have hsplit : pySplitlines (mkDiffText (mkHunkHeader a b c d) body)
      = mkHunkHeader a b c d :: body := by
    unfold mkDiffText
    exact pySplitlines_joinNl (mkHunkHeader a b c d :: body)
      (List.forall_mem_cons.mpr
        ⟨⟨by simp [mkHunkHeader], mkHunkHeader_breakfree a b c d⟩, hbody⟩)
  have hfind : findHunkIdx (mkHunkHeader a b c d :: body) = some 0 := by
    simp [findHunkIdx, mkHunkHeader, List.isPrefixOf]
  obtain ⟨v, hv⟩ := pyInt_natToChars a
  have htake : (natToChars a ++ ',' :: natToChars b).takeWhile
      (fun x => decide (x ≠ ',')) = natToChars a :=
    takeWhile_until _ _ _ _
      (fun x hx => decide_eq_true (natToChars_good a x hx).2.2.1) (by simp)
  simp only [apply_diff_to_source, hsplit, hfind]
  simp only [List.getD_cons_zero, pySplitWS_hunkHeader, List.length_cons,
    List.length_nil, List.getD_cons_succ, List.drop_succ_cons, List.drop_zero]
  simp only [List.drop_one, List.tail_cons, htake, hv]
  simp

/-- Claim C3 (corrected): a genuine single-hunk unified diff whose hunk
starts at line 1 of the original applies exactly: if `body` is a correct
edit script transforming the leading lines `oldMid` into `newMid` and the
remaining lines `suffix` are untouched, then `apply_diff_to_source`
reproduces the modified text exactly, with no lost or duplicated lines.
For a hunk starting at any later line the result is wrong — see
`roundtrip_fails_offset_hunk_cex` — because the parsed start line is a dead
store and replay always begins at line 1. -/
theorem roundtrip_line1_hunk (oldMid newMid suffix body : List (List Char))
    (hb : HunkBody body oldMid newMid)
    (hold : ∀ l ∈ oldMid, ∀ c ∈ l, isPyBreak c = false)
    (hnew : ∀ l ∈ newMid, ∀ c ∈ l, isPyBreak c = false)
    (hsuf : ∀ l ∈ suffix, ∀ c ∈ l, isPyBreak c = false) :
    apply_diff_to_source (mkText (oldMid ++ suffix))
        (mkDiffText (mkHunkHeader 1 oldMid.length 1 newMid.length) body)
      = some (mkText (newMid ++ suffix)) := by
  rw [apply_mkDiff_canon _ _ _ _ _ _ (hunkBody_lines hb hold hnew)]
  have hkeep : pySplitlinesKeep (mkText (oldMid ++ suffix)) = (oldMid ++ suffix).map wNl :=
    pySplitlinesKeep_mkText (oldMid ++ suffix)
      (fun l hl => (List.mem_append.mp hl).elim (hold l) (hsuf l))
  rw [hkeep, applyDiffLoop_eq_bodyS, List.drop_zero, List.map_append]
  rw [applyBodyS_hunkBody hb (suffix.map wNl)]
  rw [← List.map_append]
  rfl

/-- Claim C3 counterexample: the diff `@@ -4,1 +4,1 @@ / -d / +D` is a
genuine single-hunk diff of `a\nb\nc\nd\n` against `a\nb\nc\nD\n` (shared
prefix `a,b,c`, hunk at line 4, body an exact edit script for the covered
region), yet the applier returns `D\nb\nc\nd\n` — the edit is replayed at
line 1 and the result is NOT the modified version. -/
theorem roundtrip_fails_offset_hunk_cex :
    HunkBody [('-' :: "d".toList), ('+' :: "D".toList)] ["d".toList] ["D".toList]
    ∧ apply_diff_to_source
        (mkText ["a".toList, "b".toList, "c".toList, "d".toList])
        (mkDiffText (mkHunkHeader 4 1 4 1) [('-' :: "d".toList), ('+' :: "D".toList)])
        = some ("D\nb\nc\nd\n".toList)
    ∧ ("D\nb\nc\nd\n".toList : List Char)
        ≠ mkText ["a".toList, "b".toList, "c".toList, "D".toList] :=
  ⟨HunkBody.del _ (HunkBody.add _ HunkBody.nil), by decide, by decide⟩

/-- Witness for `roundtrip_line1_hunk`: replacing the single leading line
`x` by `y` above the untouched line `z`. -/
theorem roundtrip_line1_hunk_witness :
    apply_diff_to_source (mkText ["x".toList, "z".toList])
        (mkDiffText (mkHunkHeader 1 1 1 1) [('-' :: "x".toList), ('+' :: "y".toList)])
      = some (mkText ["y".toList, "z".toList]) :=
  roundtrip_line1_hunk ["x".toList] ["y".toList] ["z".toList]
    [('-' :: "x".toList), ('+' :: "y".toList)]
    (HunkBody.del _ (HunkBody.add _ HunkBody.nil))
    (by decide) (by decide) (by decide)

/-- Claim C10 (corrected): the hunk header's parsed starting line is indeed
a dead store — two well-formed headers with arbitrary different numbers
produce identical results — and replay starts at line 1 with the remaining
original lines appended; but it is NOT true that only the first hunk is
processed: every context/deletion/addition line after the FIRST header is
replayed, including the bodies of later hunks (their `@@` lines are merely
skipped), see `all_hunks_processed_cex`. -/
theorem hunk_header_ignored (orig : List Char) (a1 b1 c1 d1 a2 b2 c2 d2 : Nat)
    (body : List (List Char))
    (hbody : ∀ bl ∈ body, bl ≠ [] ∧ ∀ ch ∈ bl, isPyBreak ch = false) :
    apply_diff_to_source orig (mkDiffText (mkHunkHeader a1 b1 c1 d1) body)
      = some ((applyDiffLoop body (pySplitlinesKeep orig) 0).flatten)
    ∧ apply_diff_to_source orig (mkDiffText (mkHunkHeader a1 b1 c1 d1) body)
      = apply_diff_to_source orig (mkDiffText (mkHunkHeader a2 b2 c2 d2) body) :=
  ⟨apply_mkDiff_canon orig a1 b1 c1 d1 body hbody,
    (apply_mkDiff_canon orig a1 b1 c1 d1 body hbody).trans
      (apply_mkDiff_canon orig a2 b2 c2 d2 body hbody).symm⟩

/-- Claim C10 counterexample: on a two-hunk diff the applier replays the
second hunk's addition as well — the result differs from processing only
the first hunk (`applyFirstHunkOnly`, the claim's reading). -/
theorem all_hunks_processed_cex :
    apply_diff_to_source ("a\n".toList)
        ("@@ -1,1 +1,1 @@\n+x\n@@ -9,1 +9,1 @@\n+y\n".toList)
      = some ("x\ny\na\n".toList)
    ∧ applyFirstHunkOnly ("a\n".toList)
        ("@@ -1,1 +1,1 @@\n+x\n@@ -9,1 +9,1 @@\n+y\n".toList)
      = some ("x\na\n".toList)
    ∧ ("x\ny\na\n".toList : List Char) ≠ ("x\na\n".toList : List Char) :=
  ⟨by decide, by decide, by decide⟩

/-- Witness for `hunk_header_ignored`: a one-line addition applied under a
header claiming start line 1 and under one claiming start line 9 gives the
same result, computed from line 1. -/
theorem hunk_header_ignored_witness :
    apply_diff_to_source ("a\n".toList)
        (mkDiffText (mkHunkHeader 1 1 1 1) [('+' :: "x".toList)])
      = some ((applyDiffLoop [('+' :: "x".toList)]
          (pySplitlinesKeep ("a\n".toList)) 0).flatten)
    ∧ apply_diff_to_source ("a\n".toList)
        (mkDiffText (mkHunkHeader 1 1 1 1) [('+' :: "x".toList)])
      = apply_diff_to_source ("a\n".toList)
        (mkDiffText (mkHunkHeader 9 9 9 9) [('+' :: "x".toList)]) :=
  hunk_header_ignored ("a\n".toList) 1 1 1 1 9 9 9 9 [('+' :: "x".toList)] (by decide)

end DevAgent
